import Mathlib

/-
Verification of the rf-rag core (knowledge graph, scope resolver,
redundancy detector, diversity sampler) against its design document.

The Python sources are shallowly embedded:
  * `src/rf_rag/models.py`   -> domain records below
  * `src/rf_rag/config.py`   -> `RAGConfig` and its (absent) validation
  * `src/rf_rag/parser.py`   -> the variable-redaction creation path
  * `src/rf_rag/resolver.py` -> `walkFuel` / `effective_keywords` / `imported_files`
  * `src/rf_rag/graph.py`    -> a Cypher-MERGE semantics over `GraphState`
  * `src/rf_rag/modules/redundancy.py` -> `cosine_similarity`
  * `src/rf_rag/modules/smoke.py`      -> `farthest_point_sampling`

Python floats are idealised as real numbers (`ℝ`); vector data, which in the
sources arrives as JSON-ish numerals, is carried as rationals (`ℚ`) and cast
into `ℝ` where the code does arithmetic.  NumPy's `inf` / `-inf` sentinels in
the sampler are modelled with `EReal`.
-/

/- ------------------------------------------------------------------ -/
/- Domain model (models.py)                                            -/
/- ------------------------------------------------------------------ -/

/-- Embedding of `models.LocatorMapping`: one UI element with optional
per-platform locators (`None` in Python becomes `none`). -/
structure LocatorMapping where
  element_name : String
  ios_locator : Option String := none
  android_locator : Option String := none
deriving DecidableEq, Repr

/-- Embedding of `models.KeywordDef` (the fields the graph and resolver read). -/
structure KeywordDef where
  name : String := ""
  fqn : String := ""
  source_file : String := ""
  documentation : String := ""
  tags : List String := []
  called_keywords : List String := []
  line_number : Nat := 0
deriving DecidableEq, Repr

/-- Embedding of `models.TestCaseDef` (the fields the graph reads). -/
structure TestCaseDef where
  name : String := ""
  fqn : String := ""
  source_file : String := ""
  documentation : String := ""
  tags : List String := []
  called_keywords : List String := []
  line_number : Nat := 0
deriving DecidableEq, Repr

/-- Embedding of `models.VariableDef`. -/
structure VariableDef where
  name : String
  value_repr : String := ""
  source_file : String := ""
  var_type : String := "scalar"
deriving DecidableEq, Repr

/-- Embedding of `models.ResourceFile`; `role` and `platform` are carried as
their `.value` strings. -/
structure ResourceFile where
  rel_path : String
  role : String := "UNKNOWN"
  platform : String := "common"
  documentation : String := ""
  imports : List String := []
  library_imports : List String := []
  keywords : List KeywordDef := []
  test_cases : List TestCaseDef := []
  -- source field name `variables` (a reserved word here)
  variable_defs : List VariableDef := []
  locator_mappings : List LocatorMapping := []
deriving DecidableEq, Repr

/- ------------------------------------------------------------------ -/
/- Configuration (config.py)                                           -/
/- ------------------------------------------------------------------ -/

/-- Embedding of `config.RAGConfig` (the fields relevant to validation).
`project_root` is a path string; the similarity threshold, a Python float,
is carried as a rational. -/
structure RAGConfig where
  project_root : String
  data_dir : Option String := none
  embedding_model : String := "all-MiniLM-L6-v2"
  embedding_dim : Int := 384
  smoke_test_count : Int := 20
  similarity_threshold : ℚ := 9/10
deriving DecidableEq, Repr

/-- Embedding of constructing `RAGConfig(project_root=..., smoke_test_count=...,
similarity_threshold=...)`.  The pydantic model declares no field validators,
no numeric `Field` bounds and no path checks, so for well-typed arguments
construction always succeeds; the `Except` codomain records where a
validation error would be surfaced if the class raised one. -/
def RAGConfig.construct (root : String) (count : Int) (threshold : ℚ) :
    Except String RAGConfig :=
  Except.ok { project_root := root, smoke_test_count := count,
              similarity_threshold := threshold }

/- ------------------------------------------------------------------ -/
/- Variable redaction at creation time (parser.py, lines 176-187)      -/
/- ------------------------------------------------------------------ -/

/-- Does the first character list lead the second one (list prefix test)? -/
def subLeads : List Char → List Char → Bool
  | [], _ => true
  | _ :: _, [] => false
  | a :: as, b :: bs => a = b && subLeads as bs

/-- Does the needle occur anywhere in the haystack? -/
def subAt : List Char → List Char → Bool
  | n, [] => n.isEmpty
  | n, c :: cs => subLeads n (c :: cs) || subAt n cs

/-- Substring test, modelling Python's `needle in haystack`. -/
def strContains (haystack needle : String) : Bool :=
  subAt needle.data haystack.data

/-- Python `str.lower()` (character-wise, as for the ASCII names involved). -/
def lowerStr (s : String) : String :=
  String.mk (s.data.map Char.toLower)

/-- Sensitive-term list from `parser.parse_file`. -/
def sensitiveTerms : List String :=
  ["password", "secret", "token", "key", "credential"]

/-- Embedding of the redaction step of `parser.parse_file`:
`lower_name = var_name.lower()`; if any sensitive term occurs in it the
stored value becomes the sentinel, otherwise the raw representation. -/
def redactValue (varName valueRepr : String) : String :=
  if sensitiveTerms.any (fun t => strContains (lowerStr varName) t) then
    "***REDACTED***"
  else valueRepr

/-- Embedding of the only `VariableDef` creation site in the system
(`parser.parse_file`, the variables loop): the value representation is
redacted before the record is constructed. -/
def mkVariableDef (varName valueRepr relPath vtype : String) : VariableDef :=
  { name := varName
    value_repr := redactValue varName valueRepr
    source_file := relPath
    var_type := vtype }

/- ------------------------------------------------------------------ -/
/- Cosine similarity (modules/redundancy.py, `_cosine_similarity`)     -/
/- ------------------------------------------------------------------ -/

/-- Dot product of two rational vectors (NumPy `np.dot` on equal-length
vectors; `zipWith` realises the elementwise product). -/
def dotQ (a b : List ℚ) : ℚ :=
  (List.zipWith (fun x y => x * y) a b).sum

/-- Pointwise negation of a vector (the `−v` of the design document). -/
def negQ (v : List ℚ) : List ℚ :=
  v.map (fun x => -x)

open Classical in
/-- Embedding of `_cosine_similarity`: `denom = ‖a‖·‖b‖`; if `denom == 0`
return `0.0`, else `dot(a,b)/denom`.  `np.linalg.norm v = √(v·v)`. -/
noncomputable def cosine_similarity (a b : List ℚ) : ℝ :=
  let denom : ℝ := Real.sqrt ((dotQ a a : ℝ)) * Real.sqrt ((dotQ b b : ℝ))
  if denom = 0 then 0 else ((dotQ a b : ℝ)) / denom

/- ------------------------------------------------------------------ -/
/- Effective scope resolver (resolver.py)                              -/
/- ------------------------------------------------------------------ -/

/-- Structural splitting of a character list at a separator character. -/
def splitOnChar (c : Char) : List Char → List (List Char)
  | [] => [[]]
  | x :: xs =>
    match splitOnChar c xs with
    | [] => [[]]
    | r :: rs => if x = c then [] :: r :: rs else (x :: r) :: rs

/-- Replacement of every (non-overlapping, left-to-right) occurrence of a
nonempty pattern, with the remaining length as structural fuel. -/
def replaceSubFuel (pat rep : List Char) : Nat → List Char → List Char
  | 0, l => l
  | _ + 1, [] => []
  | fuel + 1, x :: xs =>
    if pat ≠ [] && subLeads pat (x :: xs) then
      rep ++ replaceSubFuel pat rep fuel ((x :: xs).drop pat.length)
    else x :: replaceSubFuel pat rep fuel xs

/-- Python `str.replace` for a nonempty pattern. -/
def strReplace (s pat rep : String) : String :=
  String.mk (replaceSubFuel pat.data rep.data s.data.length s.data)

/-- Python `str.strip()`. -/
def strTrim (s : String) : String :=
  String.mk
    (((s.data.dropWhile Char.isWhitespace).reverse.dropWhile
        Char.isWhitespace).reverse)

/-- Is the path string absolute (`pathlib`: begins with a slash)? -/
def isAbsPath (p : String) : Bool :=
  subLeads "/".data p.data

/-- Joining of component lists back into a path string. -/
def joinSlash : List String → String
  | [] => ""
  | [x] => x
  | x :: xs => x ++ "/" ++ joinSlash xs

/-- Path components of a path string; like `pathlib`, empty components and
single dots disappear at parse time while `..` is kept for `resolve()`. -/
def splitPath (s : String) : List String :=
  ((splitOnChar '/' s.data).map String.mk).filter (fun c => c ≠ "" && c ≠ ".")

/-- Lexical `Path.resolve()` on components: `..` pops one component and is
dropped at the filesystem root. -/
def resolveDots (parts : List String) : List String :=
  parts.foldl (fun acc c => if c = ".." then acc.dropLast else acc ++ [c]) []

/-- Component list of `base / p` with `pathlib` join semantics: an absolute
right operand replaces the left one. -/
def joinPath (base : List String) (p : String) : List String :=
  if isAbsPath p then splitPath p else base ++ splitPath p

/-- First file-map entry for a key (`dict` lookup over the insertion-ordered
association list). -/
def lookupFm (fm : List (String × ResourceFile)) (k : String) :
    Option ResourceFile :=
  (fm.find? (fun p => p.1 == k)).map (fun p => p.2)

/-- Embedding of `ResourceResolver._resolve_import`.  The project root is an
absolute path given by its components.  `${CURDIR}` / `%{CURDIR}` become `.`,
the expression is trimmed, joined onto the importing file's directory,
lexically resolved, and related back to the project root; the result must
name a file-map key (directly, or after `\` normalisation). -/
def resolveImport (fm : List (String × ResourceFile)) (root : List String)
    (importingFile importPath : String) : Option String :=
  let ip := strTrim (strReplace (strReplace importPath "${CURDIR}" ".") "%{CURDIR}" ".")
  let importingDir := (joinPath root importingFile).dropLast
  let candidate := resolveDots (joinPath importingDir ip)
  if root.isPrefixOf candidate then
    let rest := candidate.drop root.length
    let resolvedRel := strReplace (if rest.isEmpty then "." else joinSlash rest) "\\" "/"
    if (lookupFm fm resolvedRel).isSome then some resolvedRel
    else ((fm.find? (fun p => strReplace p.1 "\\" "/" == resolvedRel)).map (fun p => p.1))
  else none

/-- Embedding of `ResourceResolver._walk` with an explicit fuel argument
standing for the Python call stack: each nested recursive call consumes one
unit.  The pair carries the `visited` set (as its insertion-ordered list) and
the keyword accumulator; `none` means the stack bound was exhausted, which
the termination theorem below rules out for the default fuel. -/
def walkFuel (fm : List (String × ResourceFile)) (root : List String) :
    Nat → String → List String → List KeywordDef →
    Option (List String × List KeywordDef)
  | 0, _, _, _ => none
  | fuel + 1, rel, visited, acc =>
    if rel ∈ visited then some (visited, acc)
    else
      let v1 := visited ++ [rel]
      match lookupFm fm rel with
      | none => some (v1, acc)
      | some rf =>
        rf.imports.foldl
          (fun st imp =>
            match st with
            | none => none
            | some p =>
              match resolveImport fm root rel imp with
              | some r => walkFuel fm root fuel r p.1 p.2
              | none => some p)
          (some (v1, acc ++ rf.keywords))

/-- Embedding of `ResourceResolver._walk_files` (same walk, files only). -/
def walkFilesFuel (fm : List (String × ResourceFile)) (root : List String) :
    Nat → String → List String → Option (List String)
  | 0, _, _ => none
  | fuel + 1, rel, visited =>
    if rel ∈ visited then some visited
    else
      let v1 := visited ++ [rel]
      match lookupFm fm rel with
      | none => some v1
      | some rf =>
        rf.imports.foldl
          (fun st imp =>
            match st with
            | none => none
            | some v =>
              match resolveImport fm root rel imp with
              | some r => walkFilesFuel fm root fuel r v
              | none => some v)
          (some v1)

/-- Default stack bound: strictly more than the number of file-map keys. -/
def defaultFuel (fm : List (String × ResourceFile)) : Nat :=
  fm.length + 2

/-- Body of `effective_keywords` on a cache miss: fresh visited set, fresh
accumulator, one walk (`Option`-valued; `none` is fuel exhaustion). -/
def scopeWalkO (fm : List (String × ResourceFile)) (root : List String)
    (rel : String) : Option (List KeywordDef) :=
  (walkFuel fm root (defaultFuel fm) rel [] []).map (fun p => p.2)

/-- Total version of `scopeWalkO`. -/
def scopeWalk (fm : List (String × ResourceFile)) (root : List String)
    (rel : String) : List KeywordDef :=
  (scopeWalkO fm root rel).getD []

/-- Embedding of `ResourceResolver.imported_files`: walk the import chain
collecting file paths, return them sorted. -/
def imported_files (fm : List (String × ResourceFile)) (root : List String)
    (rel : String) : List String :=
  ((walkFilesFuel fm root (defaultFuel fm) rel []).getD []).mergeSort
    (fun a b => decide (a ≤ b))

/-- Embedding of the `ResourceResolver` object state: the shared file map,
the project root and the memoisation cache `_scope_cache` (newest entry
first, modelling dict insertion). -/
structure ResourceResolver where
  file_map : List (String × ResourceFile)
  project_root : List String
  scope_cache : List (String × List KeywordDef) := []

/-- Embedding of `ResourceResolver.effective_keywords`: return the cached
list when present, otherwise walk, cache and return. -/
def ResourceResolver.effective_keywords (r : ResourceResolver)
    (rel : String) : List KeywordDef × ResourceResolver :=
  match r.scope_cache.lookup rel with
  | some cached => (cached, r)
  | none =>
      let result := scopeWalk r.file_map r.project_root rel
      (result, { r with scope_cache := (rel, result) :: r.scope_cache })

/-- External mutation of the underlying file map (the resolver holds a shared
reference to the engine's `file_map` dict); the scope cache is untouched. -/
def ResourceResolver.setFileMap (r : ResourceResolver)
    (fm : List (String × ResourceFile)) : ResourceResolver :=
  { r with file_map := fm }

/- ------------------------------------------------------------------ -/
/- Graph layer (graph.py), a semantics for the Cypher statements of    -/
/- `RFGraph._add_file_tx` over an explicit state                       -/
/- ------------------------------------------------------------------ -/

/-- Neo4j node labels used by `graph.py` (`_LABELS`). -/
inductive GLabel
  | File | Keyword | TestCase | Variable | Tag | LocatorElement
deriving DecidableEq, Repr

/-- A node is identified by its optional label together with its `uid`
property: the uniqueness constraints created in `_ensure_constraints` make
`uid` unique per label, and an unlabelled node (a bare `MERGE (b {uid: _})`
placeholder) is created at most once per uid. -/
abbrev NodeKey := Option GLabel × String

/-- One stored node: identity plus the properties written by `SET`. -/
structure GNode where
  key : NodeKey
  props : List (String × String)
deriving DecidableEq, Repr

/-- One stored relationship between two node identities. -/
structure GEdge where
  src : NodeKey
  tgt : NodeKey
  etype : String
deriving DecidableEq, Repr

/-- The graph database state. -/
structure GraphState where
  nodes : List GNode
  edges : List GEdge
deriving DecidableEq, Repr

/-- The empty database. -/
def GraphState.empty : GraphState := { nodes := [], edges := [] }

/-- Does a node with the given label/uid identity exist? -/
def GraphState.hasKey (s : GraphState) (k : NodeKey) : Bool :=
  s.nodes.any (fun n => n.key = k)

/-- All node identities carrying a given `uid`, in store order (the match set
of a label-less pattern `(b {uid: u})`). -/
def GraphState.keysWithUid (s : GraphState) (u : String) : List NodeKey :=
  (s.nodes.filter (fun n => n.key.2 = u)).map (fun n => n.key)

/-- Cypher `MERGE (n:L {uid: u}) SET n.…`: match the unique labelled node and
overwrite its properties, or create it with those properties. -/
def GraphState.mergeSet (s : GraphState) (l : GLabel) (u : String)
    (props : List (String × String)) : GraphState :=
  if s.hasKey (some l, u) then
    { s with nodes := s.nodes.map (fun n =>
        if n.key = (some l, u) then { n with props := props } else n) }
  else
    { s with nodes := s.nodes ++ [{ key := (some l, u), props := props }] }

/-- Cypher `MERGE (n:L {uid: u})` without a `SET`: create the labelled node
with no properties when absent, otherwise leave the store untouched. -/
def GraphState.mergeBare (s : GraphState) (l : GLabel) (u : String) :
    GraphState :=
  if s.hasKey (some l, u) then s
  else { s with nodes := s.nodes ++ [{ key := (some l, u), props := [] }] }

/-- Cypher `MERGE (a)-[:T]->(b)` for two already-bound nodes: create the
relationship only when it does not exist. -/
def GraphState.addEdge (s : GraphState) (e : GEdge) : GraphState :=
  if e ∈ s.edges then s else { s with edges := s.edges ++ [e] }

/-- The statement forms issued by `_add_file_tx`. -/
inductive GStmt
  /-- `MERGE (n:l {uid: u}) SET …` -/
  | mergeSetNode (l : GLabel) (u : String) (props : List (String × String))
  /-- `MERGE (a:File {uid: src}) MERGE (b:File {uid: tgt}) MERGE (a)-[:IMPORTS]->(b)` -/
  | mergeImport (src tgt : String)
  /-- `MATCH (a:l1 {uid: u1}) MATCH (b:l2 {uid: u2}) MERGE (a)-[:t]->(b)` -/
  | matchEdge (l1 : GLabel) (u1 : String) (l2 : GLabel) (u2 : String) (t : String)
  /-- `MERGE (a:l {uid: src}) MERGE (b {uid: tgt}) MERGE (a)-[:CALLS]->(b)`;
  the label-less pattern binds every node whose uid is `tgt` (whatever its
  label), or creates one unlabelled placeholder node when none exists. -/
  | mergeCalls (l : GLabel) (src tgt : String)
deriving DecidableEq, Repr

/-- Execute one statement against the store. -/
def execStmt (s : GraphState) : GStmt → GraphState
  | .mergeSetNode l u props => s.mergeSet l u props
  | .mergeImport src tgt =>
      let s1 := s.mergeBare .File src
      let s2 := s1.mergeBare .File tgt
      s2.addEdge { src := (some .File, src), tgt := (some .File, tgt), etype := "IMPORTS" }
  | .matchEdge l1 u1 l2 u2 t =>
      if s.hasKey (some l1, u1) && s.hasKey (some l2, u2) then
        s.addEdge { src := (some l1, u1), tgt := (some l2, u2), etype := t }
      else s
  | .mergeCalls l src tgt =>
      let s1 := s.mergeBare l src
      let ks := s1.keysWithUid tgt
      if ks.isEmpty then
        let s2 := { s1 with nodes := s1.nodes ++ [({ key := (none, tgt), props := [] } : GNode)] }
        s2.addEdge { src := (some l, src), tgt := (none, tgt), etype := "CALLS" }
      else
        ks.foldl (fun st k =>
          st.addEdge { src := (some l, src), tgt := k, etype := "CALLS" }) s1

/-- Properties written for the file node. -/
def fileProps (rf : ResourceFile) : List (String × String) :=
  [("node_type", "file"), ("role", rf.role), ("platform", rf.platform),
   ("doc", rf.documentation)]

/-- Properties written for a keyword node. -/
def kwProps (rf : ResourceFile) (kw : KeywordDef) : List (String × String) :=
  [("node_type", "keyword"), ("doc", kw.documentation),
   ("source", rf.rel_path), ("line", toString kw.line_number)]

/-- Properties written for a test-case node. -/
def tcProps (rf : ResourceFile) (tc : TestCaseDef) : List (String × String) :=
  [("node_type", "test_case"), ("doc", tc.documentation),
   ("source", rf.rel_path), ("line", toString tc.line_number)]

/-- Properties written for a variable node. -/
def varProps (rf : ResourceFile) (v : VariableDef) : List (String × String) :=
  [("node_type", "variable"), ("source", rf.rel_path),
   ("var_type", v.var_type)]

/-- Properties written for a locator-element node; `lm.ios_locator or ""`
collapses `None` to the empty string. -/
def elemProps (lm : LocatorMapping) : List (String × String) :=
  [("node_type", "locator_element"),
   ("ios", lm.ios_locator.getD ""), ("android", lm.android_locator.getD "")]

/-- The statements of `_add_file_tx` for one keyword, in source order. -/
def kwStmts (rf : ResourceFile) (kw : KeywordDef) : List GStmt :=
  [GStmt.mergeSetNode .Keyword kw.fqn (kwProps rf kw),
   GStmt.matchEdge .File rf.rel_path .Keyword kw.fqn "DEFINES"]
  ++ kw.called_keywords.map (fun called => GStmt.mergeCalls .Keyword kw.fqn called)
  ++ kw.tags.flatMap (fun tag =>
      [GStmt.mergeSetNode .Tag ("tag:" ++ tag) [("node_type", "tag")],
       GStmt.matchEdge .Keyword kw.fqn .Tag ("tag:" ++ tag) "TAGGED"])

/-- The statements of `_add_file_tx` for one test case, in source order. -/
def tcStmts (rf : ResourceFile) (tc : TestCaseDef) : List GStmt :=
  [GStmt.mergeSetNode .TestCase tc.fqn (tcProps rf tc),
   GStmt.matchEdge .File rf.rel_path .TestCase tc.fqn "TESTS"]
  ++ tc.called_keywords.map (fun called => GStmt.mergeCalls .TestCase tc.fqn called)
  ++ tc.tags.flatMap (fun tag =>
      [GStmt.mergeSetNode .Tag ("tag:" ++ tag) [("node_type", "tag")],
       GStmt.matchEdge .TestCase tc.fqn .Tag ("tag:" ++ tag) "TAGGED"])

/-- Every statement `_add_file_tx` runs for one `ResourceFile`, in source
order: file node, imports, keywords, test cases, variables, locators. -/
def fileStmts (rf : ResourceFile) : List GStmt :=
  [GStmt.mergeSetNode .File rf.rel_path (fileProps rf)]
  ++ rf.imports.map (fun imp => GStmt.mergeImport rf.rel_path imp)
  ++ rf.keywords.flatMap (fun kw => kwStmts rf kw)
  ++ rf.test_cases.flatMap (fun tc => tcStmts rf tc)
  ++ rf.variable_defs.flatMap (fun v =>
      [GStmt.mergeSetNode .Variable ("var:" ++ v.name) (varProps rf v),
       GStmt.matchEdge .File rf.rel_path .Variable ("var:" ++ v.name) "DEFINES"])
  ++ rf.locator_mappings.flatMap (fun lm =>
      [GStmt.mergeSetNode .LocatorElement ("element:" ++ lm.element_name) (elemProps lm),
       GStmt.matchEdge .File rf.rel_path .LocatorElement
         ("element:" ++ lm.element_name) "MAPS_ELEMENT"])

/-- Embedding of `RFGraph.add_file` (the transaction `_add_file_tx`). -/
def addFile (s : GraphState) (rf : ResourceFile) : GraphState :=
  (fileStmts rf).foldl execStmt s

/- ------------------------------------------------------------------ -/
/- Graph queries (graph.py)                                            -/
/- ------------------------------------------------------------------ -/

/-- First value of a property in a property list (Cypher property access). -/
def propLookup : List (String × String) → String → Option String
  | [], _ => none
  | (k, v) :: rest, key => if k = key then some v else propLookup rest key

/-- Python `str.removeprefix`. -/
def removePre (p s : String) : String :=
  if subLeads p.data s.data then String.mk (s.data.drop p.data.length) else s

/-- Embedding of `RFGraph.node_data`: properties of the first node matching
`(n {uid: u})`, or the empty map. -/
def node_data (s : GraphState) (u : String) : List (String × String) :=
  match s.nodes.find? (fun n => n.key.2 = u) with
  | some n => n.props
  | none => []

/-- Embedding of `RFGraph.keywords_in_file`: uids reached by
`MATCH (f:File {uid: p})-[:DEFINES]->(k:Keyword)`. -/
def keywords_in_file (s : GraphState) (p : String) : List String :=
  ((s.edges.filter (fun e =>
      e.src = ((some GLabel.File, p) : NodeKey) && e.etype = "DEFINES"
        && e.tgt.1 = some GLabel.Keyword)).map (fun e => e.tgt.2))

/-- One row of `RFGraph.mismatched_po_elements`. -/
structure MismatchEntry where
  element : String
  ios : String
  android : String
deriving DecidableEq, Repr

/-- The `WHERE` clause of `mismatched_po_elements`: exactly one stored
locator is the empty string; a node lacking either property yields no row. -/
def whereMismatch (props : List (String × String)) : Bool :=
  match propLookup props "ios", propLookup props "android" with
  | some i, some a => (i = "" && a ≠ "") || (i ≠ "" && a = "")
  | _, _ => false

/-- Python `x or "MISSING"` on a stored locator string. -/
def orMissing (v : String) : String :=
  if v = "" then "MISSING" else v

/-- Embedding of `RFGraph.mismatched_po_elements`. -/
def mismatched_po_elements (s : GraphState) : List MismatchEntry :=
  ((s.nodes.filter (fun n =>
      n.key.1 = some GLabel.LocatorElement && whereMismatch n.props)).map
    (fun n =>
      { element := removePre "element:" n.key.2
        ios := orMissing ((propLookup n.props "ios").getD "")
        android := orMissing ((propLookup n.props "android").getD "") }))

/-- The locator-element rows of the store (`MATCH (e:LocatorElement)`). -/
def leNodes (s : GraphState) : List GNode :=
  s.nodes.filter (fun n => n.key.1 = some GLabel.LocatorElement)

/- ------------------------------------------------------------------ -/
/- Diversity sampler (modules/smoke.py)                                -/
/- ------------------------------------------------------------------ -/

/-- Embedding of the `SmokeCandidate` dataclass; `distance_score`, a NumPy
float that can be `inf`, is carried as an `EReal`. -/
structure SmokeCandidate where
  fqn : String
  source : String
  tags : List String
  distance_score : EReal

/-- Dot product over the reals (`matrix @ matrix[last]`, row by row). -/
noncomputable def dotR (a b : List ℝ) : ℝ :=
  (List.zipWith (fun x y => x * y) a b).sum

open Classical in
/-- Row normalisation of `farthest_point_sampling`: divide by the L2 norm,
a zero norm being replaced by `1.0` first (`norms[norms == 0] = 1.0`). -/
noncomputable def normalizeRow (v : List ℝ) : List ℝ :=
  let n := Real.sqrt (dotR v v)
  let n := if n = 0 then 1 else n
  v.map (fun x => x / n)

/-- The masking loop `for si in selected: min_distances[si] = -inf`,
expressed positionally from index `i` on. -/
def maskFrom (i : Nat) (selected : List Nat) : List EReal → List EReal
  | [] => []
  | x :: xs => (if i ∈ selected then (⊥ : EReal) else x) :: maskFrom (i + 1) selected xs

open Classical in
/-- Fold underlying `np.argmax`: scan left to right keeping the first index
holding the strictly largest value seen so far. -/
noncomputable def argmaxAux (i : Nat) (best : Nat × EReal) :
    List EReal → Nat × EReal
  | [] => best
  | x :: xs => argmaxAux (i + 1) (if best.2 < x then (i, x) else best) xs

/-- Embedding of `int(np.argmax(min_distances))` (first index of the
maximum; `0` on an all-`-inf` array). -/
noncomputable def argmaxIdx (l : List EReal) : Nat :=
  (argmaxAux 0 (0, ⊥) l).1

open Classical in
/-- One iteration of the selection loop of `farthest_point_sampling`:
distances from the last selected row, running-minimum update, masking of the
already-selected entries, then `argmax`. -/
noncomputable def fpsStep (mat : List (List ℝ))
    (st : List Nat × List EReal) : List Nat × List EReal :=
  let last := st.1.getLastD 0
  let lastRow := mat.getD last []
  let dists : List EReal := mat.map (fun row => (((1 : ℝ) - dotR row lastRow : ℝ) : EReal))
  let md := List.zipWith min st.2 dists
  let md := maskFrom 0 st.1 md
  let nxt := argmaxIdx md
  (st.1 ++ [nxt], md)

/-- The whole selection loop: seed index `0`, running minimums at `inf`,
`k − 1` iterations. -/
noncomputable def fpsRun (mat : List (List ℝ)) (k : Int) :
    List Nat × List EReal :=
  (fpsStep mat)^[(k - 1).toNat] ([0], List.replicate mat.length ⊤)

/-- Normalised embedding matrix in id order. -/
noncomputable def fpsMatrix (embeddings : List (String × List ℚ)) :
    List (List ℝ) :=
  embeddings.map (fun e => normalizeRow (e.2.map (fun q => (q : ℝ))))

/-- Selection state (`selected_indices`, final `min_distances`) for a
request of `n` out of the given embeddings: `k = min(n, len(ids))`. -/
noncomputable def fpsState (embeddings : List (String × List ℚ)) (n : Int) :
    List Nat × List EReal :=
  fpsRun (fpsMatrix embeddings) (min n (embeddings.length : Int))

/-- The ids `ids[idx]` of the selected candidates, in selection order; these
are the identities the result rows are built from. -/
noncomputable def fpsSelectedIds (embeddings : List (String × List ℚ))
    (n : Int) : List String :=
  if embeddings.isEmpty then []
  else (fpsState embeddings n).1.map
    (fun idx => (embeddings.map (fun e => e.1)).getD idx "")

open Classical in
/-- Embedding of `farthest_point_sampling`.  `meta` is the vector store's
`get_metadata` (a payload dictionary per id); the result rows carry
`meta.get("fqn", ids[idx])`, `meta.get("source", "")`, the comma-split tags
and the recorded score, `-inf` being reported as `0.0`. -/
noncomputable def farthest_point_sampling
    (meta : String → List (String × String))
    (embeddings : List (String × List ℚ)) (n : Int) : List SmokeCandidate :=
  if embeddings.isEmpty then []
  else
    let ids := embeddings.map (fun e => e.1)
    let st := fpsState embeddings n
    st.1.map (fun idx =>
      let uid := ids.getD idx ""
      let m := meta uid
      let tags := ((((m.lookup "tags").getD "").splitOn ",").map
        (fun t => t.trim)).filter (fun t => t ≠ "")
      { fqn := (m.lookup "fqn").getD uid
        source := (m.lookup "source").getD ""
        tags := tags
        distance_score :=
          if st.2.getD idx ⊥ = (⊥ : EReal) then 0 else st.2.getD idx ⊥ })

/- ------------------------------------------------------------------ -/
/- Derived notions used by the statements and proofs                   -/
/- ------------------------------------------------------------------ -/

/-- Keywords a file-map entry contributes to a scope walk (nothing when the
path is not a key). -/
def keywordsOf (fm : List (String × ResourceFile)) (p : String) :
    List KeywordDef :=
  ((lookupFm fm p).map (fun rf => rf.keywords)).getD []

/-- How one scope-walk state extends another: the visited list grows by a
block of fresh, pairwise-distinct paths, and the accumulator grows by
exactly those paths' keyword lists, in the same order. -/
def ScopeExtends (fm : List (String × ResourceFile))
    (p q : List String × List KeywordDef) : Prop :=
  ∃ ns : List String,
    q.1 = p.1 ++ ns ∧ ns.Nodup ∧ (∀ x ∈ ns, x ∉ p.1) ∧
    q.2 = p.2 ++ ns.flatMap (keywordsOf fm)

/-- Number of distinct file-map keys not yet visited (the quantity a
successful walk step strictly decreases). -/
def unvisitedCnt (fm : List (String × ResourceFile))
    (visited : List String) : Nat :=
  (((fm.map (fun p => p.1)).dedup).filter (fun k => k ∉ visited)).length

/-- Every uid that `_add_file_tx` merges with a label while ingesting `rf`:
the file itself, its import targets, keyword/test FQNs, tag, variable and
locator-element uids. -/
def createdLabeledUids (rf : ResourceFile) : List String :=
  [rf.rel_path] ++ rf.imports
  ++ rf.keywords.map (fun kw => kw.fqn)
  ++ rf.test_cases.map (fun tc => tc.fqn)
  ++ rf.keywords.flatMap (fun kw => kw.tags.map (fun t => "tag:" ++ t))
  ++ rf.test_cases.flatMap (fun tc => tc.tags.map (fun t => "tag:" ++ t))
  ++ rf.variable_defs.map (fun v => "var:" ++ v.name)
  ++ rf.locator_mappings.map (fun lm => "element:" ++ lm.element_name)

/-- Every `CALLS` target string `_add_file_tx` issues for `rf`. -/
def callTargets (rf : ResourceFile) : List String :=
  rf.keywords.flatMap (fun kw => kw.called_keywords)
  ++ rf.test_cases.flatMap (fun tc => tc.called_keywords)

/-- Concrete cyclic pair (the repository's `test_circular_import_handling`
scenario): `a.resource` imports `b.resource` and vice versa. -/
def cyclicRfa : ResourceFile :=
  { rel_path := "a.resource", imports := ["b.resource"],
    keywords := [{ name := "KW A", fqn := "a.KW A" }] }

/-- Second half of the concrete cyclic pair. -/
def cyclicRfb : ResourceFile :=
  { rel_path := "b.resource", imports := ["a.resource"],
    keywords := [{ name := "KW B", fqn := "b.KW B" }] }

/-- File map of the concrete cyclic pair. -/
def cyclicFm : List (String × ResourceFile) :=
  [("a.resource", cyclicRfa), ("b.resource", cyclicRfb)]

/-- Three concrete unit test-case embeddings at angles 0°, 90° and 180°:
pairwise cosine distances 1, 1 and 2. -/
def fpsEmb3 : List (String × List ℚ) :=
  [("a", [1, 0]), ("b", [0, 1]), ("c", [-1, 0])]

/-- A file with a forward keyword call: keyword `A` calls `B`, which is
defined later in the same file, so its `MERGE` call target is still
unresolved when the `CALLS` statement runs. -/
def fwdRf : ResourceFile :=
  { rel_path := "f.robot",
    keywords := [{ name := "A", fqn := "f.A", called_keywords := ["f.B"] },
                 { name := "B", fqn := "f.B" }] }

/-- A file whose only call target is an external library keyword, never
merged with a label by this file's ingestion. -/
def safeRf : ResourceFile :=
  { rel_path := "g.robot",
    keywords := [{ name := "A", fqn := "g.A",
                   called_keywords := ["BuiltIn.Log"] },
                 { name := "B", fqn := "g.B" }] }

/-- Canonical properties written for a labelled uid during one `add_file`
transaction (well-defined once definition names within the file are
duplicate-free). -/
def propsForKey (rf : ResourceFile) (l : GLabel) (u : String) :
    List (String × String) :=
  match l with
  | .File => fileProps rf
  | .Keyword =>
      (((rf.keywords.find? (fun kw => kw.fqn == u)).map
        (fun kw => kwProps rf kw)).getD [])
  | .TestCase =>
      (((rf.test_cases.find? (fun tc => tc.fqn == u)).map
        (fun tc => tcProps rf tc)).getD [])
  | .Tag => [("node_type", "tag")]
  | .Variable =>
      (((rf.variable_defs.find? (fun v => ("var:" ++ v.name) == u)).map
        (fun v => varProps rf v)).getD [])
  | .LocatorElement =>
      (((rf.locator_mappings.find?
          (fun lm => ("element:" ++ lm.element_name) == u)).map
        (fun lm => elemProps lm)).getD [])

/-- What it means for a statement's effect to be fully recorded in a state:
replaying the statement there changes nothing.  For a node merge: the node
exists and every node carrying its identity holds exactly the written
properties.  For edge merges: the endpoints exist and the relationship is
present.  For a calls merge: the source exists, some node carries the target
uid, and the `CALLS` edge to every such node is present. -/
def StmtDone (s : GraphState) : GStmt → Prop
  | .mergeSetNode l u P =>
      s.hasKey (some l, u) = true ∧
      ∀ n ∈ s.nodes, n.key = (some l, u) → n.props = P
  | .mergeImport a b =>
      s.hasKey (some .File, a) = true ∧ s.hasKey (some .File, b) = true ∧
      ({ src := (some .File, a), tgt := (some .File, b),
         etype := "IMPORTS" } : GEdge) ∈ s.edges
  | .matchEdge l1 u1 l2 u2 t =>
      s.hasKey (some l1, u1) = true ∧ s.hasKey (some l2, u2) = true ∧
      ({ src := (some l1, u1), tgt := (some l2, u2),
         etype := t } : GEdge) ∈ s.edges
  | .mergeCalls l src tgt =>
      s.hasKey (some l, src) = true ∧ s.keysWithUid tgt ≠ [] ∧
      ∀ k ∈ s.keysWithUid tgt,
        ({ src := (some l, src), tgt := k, etype := "CALLS" } : GEdge) ∈ s.edges

/-- Precondition under which executing a statement establishes `StmtDone`
for it: only the pure `MATCH … MERGE` edge statement needs its endpoints to
exist already. -/
def StmtPre (s : GraphState) : GStmt → Prop
  | .matchEdge l1 u1 l2 u2 _ =>
      s.hasKey (some l1, u1) = true ∧ s.hasKey (some l2, u2) = true
  | _ => True

/-- Uids a statement might create a labelled (or source) node for. -/
def StmtCreatesUid (t : GStmt) (u : String) : Prop :=
  match t with
  | .mergeSetNode _ u' _ => u' = u
  | .mergeImport a b => a = u ∨ b = u
  | .matchEdge _ _ _ _ _ => False
  | .mergeCalls _ src _ => src = u

/-- Conditions under which executing `t'` preserves `StmtDone _ t`: a node
merge must never be overwritten with different properties, and a calls merge
must never gain a new node carrying its target uid. -/
def StmtSafe (t t' : GStmt) : Prop :=
  match t with
  | .mergeSetNode l u P =>
      ∀ l' u' P', t' = GStmt.mergeSetNode l' u' P' → l' = l → u' = u → P' = P
  | .mergeCalls _ _ tgt => ¬ StmtCreatesUid t' tgt
  | _ => True

/-- A `MATCH`-edge statement's endpoints among a set of already-executed
statements. -/
def PreFromDone (ds : List GStmt) : GStmt → Prop
  | .matchEdge l1 u1 l2 u2 _ =>
      (∃ P1, GStmt.mergeSetNode l1 u1 P1 ∈ ds) ∧
      (∃ P2, GStmt.mergeSetNode l2 u2 P2 ∈ ds)
  | _ => True

/-- Every `MATCH`-edge statement of `L` is preceded (within `ctx` plus the
part of `L` before it) by node merges for both endpoints. -/
def WFFrom (ctx L : List GStmt) : Prop :=
  ∀ D t rest, L = D ++ t :: rest → PreFromDone (ctx ++ D) t

/- ------------------------------------------------------------------ -/
/- Basic lemmas                                                        -/
/- ------------------------------------------------------------------ -/

lemma dotQ_self_nonneg (v : List ℚ) : 0 ≤ dotQ v v := by
  induction v with
  | nil => simp [dotQ]
  | cons x xs ih =>
    simp only [dotQ, List.zipWith, List.sum_cons] at *
    have hx := mul_self_nonneg x
    linarith

lemma dotQ_negQ_right (v : List ℚ) : dotQ v (negQ v) = -(dotQ v v) := by
  induction v with
  | nil => simp [dotQ, negQ]
  | cons x xs ih =>
    simp only [dotQ, negQ, List.map_cons, List.zipWith, List.sum_cons] at *
    linarith

lemma dotQ_negQ_negQ (v : List ℚ) : dotQ (negQ v) (negQ v) = dotQ v v := by
  induction v with
  | nil => simp [dotQ, negQ]
  | cons x xs ih =>
    simp only [dotQ, negQ, List.map_cons, List.zipWith, List.sum_cons] at *
    linarith

/- ------------------------------------------------------------------ -/
/- C2: configuration validation                                        -/
/- ------------------------------------------------------------------ -/

/-- Claim C2, counterexample: constructing the configuration with a
similarity threshold of `3/2` (outside `[0,1]`), a sample count of `-3` and
a nonexistent project root succeeds; no fatal error is reported, contrary to
the claim that such input fails fast. -/
theorem C2_counterexample :
    (RAGConfig.construct "/nonexistent/path" (-3) (3/2)).isOk = true ∧
    ¬((3 : ℚ)/2 ≤ 1) ∧ ((-3 : Int) < 0) := by
  refine ⟨rfl, by norm_num, by norm_num⟩

/-- Claim C2 (amended): constructing the system configuration never fails,
whatever the similarity threshold, sample count or project root; `RAGConfig`
declares no validators, so the malformed values are stored verbatim and no
error is reported before processing begins. -/
theorem C2_amended (root : String) (count : Int) (threshold : ℚ) :
    RAGConfig.construct root count threshold =
      Except.ok { project_root := root, smoke_test_count := count,
                  similarity_threshold := threshold } := rfl

/- ------------------------------------------------------------------ -/
/- C3: sensitive-variable redaction at creation time                   -/
/- ------------------------------------------------------------------ -/

/-- Claim C3: whenever a variable's name contains (case-insensitively) one
of the sensitive terms, the value representation stored at creation time is
the redaction sentinel, independent of the real value; the record therefore
never carries the real value, and no display-time step is involved. -/
theorem C3_redaction (varName valueRepr relPath vtype : String)
    (h : ∃ t ∈ sensitiveTerms, strContains (lowerStr varName) t = true) :
    (mkVariableDef varName valueRepr relPath vtype).value_repr =
      "***REDACTED***" := by
  unfold mkVariableDef redactValue
  rw [if_pos]
  exact List.any_eq_true.mpr h

/-- Witness for C3 at the concrete variable `${DB_Password}  hunter2`. -/
theorem C3_witness :
    (∃ t ∈ sensitiveTerms, strContains (lowerStr "DB_Password") t = true) ∧
    (mkVariableDef "DB_Password" "hunter2" "resources/env.resource"
        "scalar").value_repr = "***REDACTED***" :=
  ⟨⟨"password", by decide, by decide⟩,
   C3_redaction "DB_Password" "hunter2" "resources/env.resource" "scalar"
     ⟨"password", by decide, by decide⟩⟩

/- ------------------------------------------------------------------ -/
/- C7: cosine similarity                                               -/
/- ------------------------------------------------------------------ -/

/-- Claim C7: for a vector of nonzero norm, similarity with itself is `1`
and with its negation is `-1`; whenever either norm is exactly zero the
similarity is defined to be `0` (the guard, not a division, produces it).
A vector has nonzero norm exactly when its self dot product is nonzero. -/
theorem C7_cosine (v a b : List ℚ) :
    (dotQ v v ≠ 0 →
      cosine_similarity v v = 1 ∧ cosine_similarity v (negQ v) = -1) ∧
    ((dotQ a a = 0 ∨ dotQ b b = 0) → cosine_similarity a b = 0) := by
  constructor
  · intro hv
    have hd : (0 : ℝ) ≤ ((dotQ v v : ℚ) : ℝ) := by exact_mod_cast dotQ_self_nonneg v
    have hsq : Real.sqrt ((dotQ v v : ℚ) : ℝ) * Real.sqrt ((dotQ v v : ℚ) : ℝ)
        = ((dotQ v v : ℚ) : ℝ) := Real.mul_self_sqrt hd
    have hne : ((dotQ v v : ℚ) : ℝ) ≠ 0 := by exact_mod_cast hv
    constructor
    · simp only [cosine_similarity, hsq]
      rw [if_neg hne, div_self hne]
    · simp only [cosine_similarity, dotQ_negQ_negQ, dotQ_negQ_right, hsq]
      rw [if_neg hne]
      push_cast
      rw [neg_div, div_self hne]
  · intro hab
    rcases hab with h | h
    · simp only [cosine_similarity, h]
      norm_num
    · simp only [cosine_similarity, h]
      norm_num

/-- Witness for C7 at the unit vector `[1]` and the zero vector `[0]`. -/
theorem C7_witness :
    cosine_similarity [(1 : ℚ)] [(1 : ℚ)] = 1 ∧
    cosine_similarity [(1 : ℚ)] (negQ [(1 : ℚ)]) = -1 ∧
    cosine_similarity [(0 : ℚ)] [(1 : ℚ)] = 0 := by
  refine ⟨((C7_cosine [1] [0] [1]).1 ?h).1, ((C7_cosine [1] [0] [1]).1 ?h).2,
    (C7_cosine [1] [0] [1]).2 (Or.inl ?hz)⟩
  case h => norm_num [dotQ]
  case hz => norm_num [dotQ]

/- ------------------------------------------------------------------ -/
/- C10: the resolver scope cache                                       -/
/- ------------------------------------------------------------------ -/

/-- Claim C10: once `effective_keywords(p)` has been computed, a later call
with `p` returns the originally cached list and leaves the resolver state
untouched, even when the shared file map has been replaced in between —
nothing ever invalidates or refreshes the scope cache. -/
theorem C10_cache (fm fm' : List (String × ResourceFile))
    (root : List String) (rel : String) :
    (((ResourceResolver.mk fm root []).effective_keywords rel).2.setFileMap
        fm').effective_keywords rel =
      ((((ResourceResolver.mk fm root []).effective_keywords rel).1),
        (((ResourceResolver.mk fm root []).effective_keywords rel).2.setFileMap fm')) := by
  simp [ResourceResolver.effective_keywords, ResourceResolver.setFileMap,
    List.lookup]

/- ------------------------------------------------------------------ -/
/- C5: queries against unknown identities                              -/
/- ------------------------------------------------------------------ -/

/-- Claim C5, counterexample: for a path absent from the (empty) file map,
`imported_files` does not return an empty result — it returns the queried
path itself, because the walk inserts the path into the visited set before
checking that the file exists. -/
theorem C5_counterexample :
    imported_files [] [] "x" = ["x"] ∧ (["x"] : List String) ≠ [] := by
  constructor
  · unfold imported_files
    rw [show (walkFilesFuel [] [] (defaultFuel []) "x" []).getD [] = ["x"] from rfl]
    simp [List.mergeSort]
  · simp

/-- Claim C5 (amended): for an identity absent from the index, `node_data`
returns the empty property map, `keywords_in_file` and `effective_keywords`
return empty lists, and `imported_files` returns exactly the singleton of
the queried path (never an exception; all operations are total). -/
theorem C5_amended (s : GraphState) (u : String)
    (fm : List (String × ResourceFile)) (root : List String) (p : String)
    (hnode : ∀ n ∈ s.nodes, n.key.2 ≠ u)
    (hedge : ∀ e ∈ s.edges, e.src.2 ≠ u)
    (hfm : lookupFm fm p = none) :
    node_data s u = [] ∧ keywords_in_file s u = [] ∧
    ((ResourceResolver.mk fm root []).effective_keywords p).1 = [] ∧
    imported_files fm root p = [p] := by
  have hwalk : walkFuel fm root (defaultFuel fm) p [] [] = some ([p], []) := by
    show walkFuel fm root (fm.length + 1 + 1) p [] [] = some ([p], [])
    rw [walkFuel]
    simp [hfm]
  have hwalkf : walkFilesFuel fm root (defaultFuel fm) p [] = some [p] := by
    show walkFilesFuel fm root (fm.length + 1 + 1) p [] = some [p]
    rw [walkFilesFuel]
    simp [hfm]
  refine ⟨?_, ?_, ?_, ?_⟩
  · unfold node_data
    rw [List.find?_eq_none.mpr]
    intro n hn
    simp [hnode n hn]
  · unfold keywords_in_file
    simp only [List.map_eq_nil_iff, List.filter_eq_nil_iff]
    intro e he
    simp only [Bool.and_eq_true, decide_eq_true_eq]
    rintro ⟨⟨h1, -⟩, -⟩
    exact hedge e he (by rw [h1])
  · simp only [ResourceResolver.effective_keywords, List.lookup]
    simp [scopeWalk, scopeWalkO, hwalk]
  · unfold imported_files
    rw [hwalkf]
    simp [List.mergeSort]

/-- Witness for C5 at the empty graph and empty file map. -/
theorem C5_witness :
    ((∀ n ∈ (GraphState.empty).nodes, n.key.2 ≠ "ghost") ∧
     (∀ e ∈ (GraphState.empty).edges, e.src.2 ≠ "ghost") ∧
     lookupFm [] "missing.resource" = none) ∧
    (node_data GraphState.empty "ghost" = [] ∧
     keywords_in_file GraphState.empty "ghost" = [] ∧
     ((ResourceResolver.mk [] [] []).effective_keywords "missing.resource").1 = [] ∧
     imported_files [] [] "missing.resource" = ["missing.resource"]) :=
  ⟨⟨by simp [GraphState.empty], by simp [GraphState.empty], rfl⟩,
   C5_amended GraphState.empty "ghost" [] [] "missing.resource"
     (by simp [GraphState.empty]) (by simp [GraphState.empty]) rfl⟩

/- ------------------------------------------------------------------ -/
/- Scope-walk lemmas (towards C6)                                      -/
/- ------------------------------------------------------------------ -/

lemma foldl_option_none {σ α : Type} (f : Option σ → α → Option σ)
    (hf : ∀ a, f none a = none) (l : List α) : l.foldl f none = none := by
  induction l with
  | nil => rfl
  | cons a l ih => rw [List.foldl_cons, hf a, ih]

lemma foldl_option_rel {σ α : Type} (f : Option σ → α → Option σ)
    (R : σ → σ → Prop)
    (hnone : ∀ a, f none a = none)
    (hrefl : ∀ s, R s s)
    (htrans : ∀ s t w, R s t → R t w → R s w)
    (hstep : ∀ s a s', f (some s) a = some s' → R s s') :
    ∀ (l : List α) (s0 out : σ), l.foldl f (some s0) = some out → R s0 out := by
  intro l
  induction l with
  | nil =>
    intro s0 out h
    rw [List.foldl_nil] at h
    cases h
    exact hrefl _
  | cons a l ih =>
    intro s0 out h
    rw [List.foldl_cons] at h
    cases hfa : f (some s0) a with
    | none =>
      rw [hfa, foldl_option_none f hnone] at h
      cases h
    | some s1 =>
      rw [hfa] at h
      exact htrans _ _ _ (hstep _ _ _ hfa) (ih s1 out h)

lemma scopeExtends_refl (fm : List (String × ResourceFile))
    (p : List String × List KeywordDef) : ScopeExtends fm p p :=
  ⟨[], by simp, by simp, by simp, by simp⟩

lemma scopeExtends_trans (fm : List (String × ResourceFile))
    {p q r : List String × List KeywordDef}
    (h1 : ScopeExtends fm p q) (h2 : ScopeExtends fm q r) :
    ScopeExtends fm p r := by
  obtain ⟨ns1, e1, n1, f1, a1⟩ := h1
  obtain ⟨ns2, e2, n2, f2, a2⟩ := h2
  refine ⟨ns1 ++ ns2, ?_, ?_, ?_, ?_⟩
  · rw [e2, e1, List.append_assoc]
  · rw [List.nodup_append]
    refine ⟨n1, n2, ?_⟩
    intro x hx1 hx2
    exact f2 x hx2 (by rw [e1]; exact List.mem_append_right _ hx1)
  · intro x hx
    rcases List.mem_append.mp hx with hx1 | hx2
    · exact f1 x hx1
    · intro hxp
      exact f2 x hx2 (by rw [e1]; exact List.mem_append_left _ hxp)
  · rw [a2, a1, List.append_assoc, List.flatMap_append]

lemma walk_spec (fm : List (String × ResourceFile)) (root : List String) :
    ∀ (fuel : Nat) (rel : String) (visited : List String)
      (acc : List KeywordDef) (out : List String × List KeywordDef),
      walkFuel fm root fuel rel visited acc = some out →
      ScopeExtends fm (visited, acc) out ∧
      (rel ∈ visited → out = (visited, acc)) ∧ rel ∈ out.1 := by
  intro fuel
  induction fuel with
  | zero =>
    intro rel visited acc out h
    rw [walkFuel] at h
    cases h
  | succ fuel ih =>
    intro rel visited acc out h
    rw [walkFuel] at h
    by_cases hv : rel ∈ visited
    · rw [if_pos hv] at h
      cases h
      exact ⟨scopeExtends_refl _ _, fun _ => rfl, hv⟩
    · rw [if_neg hv] at h
      cases hlk : lookupFm fm rel with
      | none =>
        simp only [hlk] at h
        cases h
        refine ⟨⟨[rel], rfl, by simp, ?_, by simp [keywordsOf, hlk]⟩,
          fun hmem => absurd hmem hv, by simp⟩
        intro x hx
        rw [List.mem_singleton] at hx
        rw [hx]; exact hv
      | some rf =>
        simp only [hlk] at h
        have hbase : ScopeExtends fm (visited, acc)
            (visited ++ [rel], acc ++ rf.keywords) := by
          refine ⟨[rel], rfl, by simp, ?_, by simp [keywordsOf, hlk]⟩
          intro x hx
          rw [List.mem_singleton] at hx
          rw [hx]; exact hv
        have hfold : ScopeExtends fm (visited ++ [rel], acc ++ rf.keywords) out := by
          refine foldl_option_rel _ (ScopeExtends fm) ?_ ?_ ?_ ?_ rf.imports _ out h
          · intro a; rfl
          · intro s; exact scopeExtends_refl fm s
          · intro s t w h1 h2; exact scopeExtends_trans fm h1 h2
          · intro s a s' hf
            replace hf : (match resolveImport fm root rel a with
              | some r => walkFuel fm root fuel r s.1 s.2
              | none => some s) = some s' := hf
            cases hri : resolveImport fm root rel a with
            | none =>
              rw [hri] at hf
              cases hf
              exact scopeExtends_refl fm s
            | some r =>
              rw [hri] at hf
              exact (ih r s.1 s.2 s' hf).1
        refine ⟨scopeExtends_trans fm hbase hfold, fun hmem => absurd hmem hv, ?_⟩
        obtain ⟨ns, e1, -, -, -⟩ := hfold
        rw [e1]
        exact List.mem_append_left _ (List.mem_append_right _ (by simp))

lemma foldl_walk_extends (fm : List (String × ResourceFile))
    (root : List String) (fuel : Nat) (rel : String) :
    ∀ (l : List String) (s0 out : List String × List KeywordDef),
      l.foldl (fun st imp =>
        match st with
        | none => none
        | some p =>
          match resolveImport fm root rel imp with
          | some r => walkFuel fm root fuel r p.1 p.2
          | none => some p) (some s0) = some out →
      ScopeExtends fm s0 out := by
  intro l s0 out h
  refine foldl_option_rel _ (ScopeExtends fm) (fun a => rfl)
    (scopeExtends_refl fm)
    (fun s t w h1 h2 => scopeExtends_trans fm h1 h2) ?_ l s0 out h
  intro s a s' hf
  replace hf : (match resolveImport fm root rel a with
    | some r => walkFuel fm root fuel r s.1 s.2
    | none => some s) = some s' := hf
  cases hri : resolveImport fm root rel a with
  | none =>
    rw [hri] at hf
    cases hf
    exact scopeExtends_refl fm s
  | some r =>
    rw [hri] at hf
    exact (walk_spec fm root fuel r s.1 s.2 s' hf).1

lemma walk_visits (fm : List (String × ResourceFile)) (root : List String)
    (fuel : Nat) (rel : String) (visited : List String)
    (acc : List KeywordDef) (out : List String × List KeywordDef)
    (rf : ResourceFile)
    (h : walkFuel fm root (fuel + 1) rel visited acc = some out)
    (hv : rel ∉ visited) (hlk : lookupFm fm rel = some rf) :
    ∀ imp ∈ rf.imports, ∀ r, resolveImport fm root rel imp = some r →
      r ∈ out.1 := by
  rw [walkFuel, if_neg hv] at h
  simp only [hlk] at h
  suffices hgen : ∀ (l : List String) (s0 : List String × List KeywordDef),
      l.foldl (fun st imp =>
        match st with
        | none => none
        | some p =>
          match resolveImport fm root rel imp with
          | some r => walkFuel fm root fuel r p.1 p.2
          | none => some p) (some s0) = some out →
      ∀ imp ∈ l, ∀ r, resolveImport fm root rel imp = some r → r ∈ out.1 by
    exact hgen rf.imports _ h
  intro l
  induction l with
  | nil =>
    intro s0 _ imp himp
    cases himp
  | cons a l ihl =>
    intro s0 h' imp himp r hres
    rw [List.foldl_cons] at h'
    cases hra : resolveImport fm root rel a with
    | none =>
      simp only [hra] at h'
      rcases List.mem_cons.mp himp with heq | hmem
      · rw [heq] at hres
        rw [hres] at hra
        cases hra
      · exact ihl s0 h' imp hmem r hres
    | some r0 =>
      simp only [hra] at h'
      cases hw : walkFuel fm root fuel r0 s0.1 s0.2 with
      | none =>
        rw [hw, foldl_option_none _ (fun a => rfl)] at h'
        cases h'
      | some s1 =>
        rw [hw] at h'
        rcases List.mem_cons.mp himp with heq | hmem
        · have hr0 : r = r0 := by
            rw [heq] at hres
            rw [hres] at hra
            exact Option.some.inj hra
          have hmem1 : r ∈ s1.1 := by
            rw [hr0]
            exact (walk_spec fm root fuel r0 s0.1 s0.2 s1 hw).2.2
          obtain ⟨ns, e1, -, -, -⟩ := foldl_walk_extends fm root fuel rel l s1 out h'
          rw [e1]
          exact List.mem_append_left _ hmem1
        · exact ihl s1 h' imp hmem r hres

lemma unvisited_mono (fm : List (String × ResourceFile))
    {v w : List String} (hsub : v ⊆ w) :
    unvisitedCnt fm w ≤ unvisitedCnt fm v := by
  unfold unvisitedCnt
  apply List.Sublist.length_le
  apply List.monotone_filter_right
  intro k hk
  simp only [decide_eq_true_eq] at *
  exact fun hkv => hk (hsub hkv)

lemma lookup_mem_dedup (fm : List (String × ResourceFile)) {rel : String}
    {rf : ResourceFile} (h : lookupFm fm rel = some rf) :
    rel ∈ (fm.map (fun p => p.1)).dedup := by
  unfold lookupFm at h
  cases hf : fm.find? (fun p => p.1 == rel) with
  | none =>
    rw [hf] at h
    cases h
  | some pr =>
    have hp := List.find?_some hf
    have hm := List.mem_of_find?_eq_some hf
    rw [List.mem_dedup]
    have hpr : pr.1 = rel := by simpa using hp
    rw [← hpr]
    exact List.mem_map.mpr ⟨pr, hm, rfl⟩

lemma unvisited_strict (fm : List (String × ResourceFile)) {rel : String}
    {visited : List String}
    (hmem : rel ∈ (fm.map (fun p => p.1)).dedup) (hv : rel ∉ visited) :
    unvisitedCnt fm (visited ++ [rel]) + 1 ≤ unvisitedCnt fm visited := by
  unfold unvisitedCnt
  have hsub : ((fm.map (fun p => p.1)).dedup.filter
        (fun k => k ∉ visited ++ [rel])).Sublist
      ((fm.map (fun p => p.1)).dedup.filter (fun k => k ∉ visited)) := by
    apply List.monotone_filter_right
    intro a ha
    simp only [decide_eq_true_eq, List.mem_append, List.mem_singleton] at *
    tauto
  have hmem2 : rel ∈ (fm.map (fun p => p.1)).dedup.filter
      (fun k => k ∉ visited) := by
    rw [List.mem_filter]
    exact ⟨hmem, by simpa using hv⟩
  have hmem1 : rel ∉ (fm.map (fun p => p.1)).dedup.filter
      (fun k => k ∉ visited ++ [rel]) := by
    rw [List.mem_filter]
    rintro ⟨-, hq⟩
    simp at hq
  rcases Nat.lt_or_ge (((fm.map (fun p => p.1)).dedup.filter
      (fun k => k ∉ visited ++ [rel])).length)
      (((fm.map (fun p => p.1)).dedup.filter (fun k => k ∉ visited)).length)
    with h | h
  · omega
  · exact absurd (hsub.eq_of_length_le h ▸ hmem2) hmem1

lemma walk_isSome (fm : List (String × ResourceFile)) (root : List String) :
    ∀ (fuel : Nat) (rel : String) (visited : List String)
      (acc : List KeywordDef),
      unvisitedCnt fm visited + 1 ≤ fuel →
      (walkFuel fm root fuel rel visited acc).isSome := by
  intro fuel
  induction fuel with
  | zero =>
    intro rel visited acc hb
    exact absurd hb (by omega)
  | succ fuel ih =>
    intro rel visited acc hb
    rw [walkFuel]
    by_cases hv : rel ∈ visited
    · rw [if_pos hv]
      rfl
    · rw [if_neg hv]
      cases hlk : lookupFm fm rel with
      | none => simp
      | some rf =>
        simp only [hlk]
        have hbound : unvisitedCnt fm (visited ++ [rel]) + 1 ≤ fuel := by
          have h1 := unvisited_strict fm (lookup_mem_dedup fm hlk) hv
          omega
        suffices hgen : ∀ (l : List String)
            (s0 : List String × List KeywordDef),
            unvisitedCnt fm s0.1 + 1 ≤ fuel →
            (l.foldl (fun st imp =>
              match st with
              | none => none
              | some p =>
                match resolveImport fm root rel imp with
                | some r => walkFuel fm root fuel r p.1 p.2
                | none => some p) (some s0)).isSome by
          exact hgen rf.imports _ hbound
        intro l
        induction l with
        | nil =>
          intro s0 _
          rfl
        | cons a l ihl =>
          intro s0 hs
          rw [List.foldl_cons]
          cases hra : resolveImport fm root rel a with
          | none =>
            simp only [hra]
            exact ihl s0 hs
          | some r =>
            simp only [hra]
            cases hw : walkFuel fm root fuel r s0.1 s0.2 with
            | none =>
              exfalso
              have hsome := ih r s0.1 s0.2 hs
              rw [hw] at hsome
              simp at hsome
            | some s1 =>
              apply ihl s1
              obtain ⟨ns, e1, -, -, -⟩ :=
                (walk_spec fm root fuel r s0.1 s0.2 s1 hw).1
              have hle : unvisitedCnt fm s1.1 ≤ unvisitedCnt fm s0.1 := by
                apply unvisited_mono
                intro x hx
                rw [e1]
                exact List.mem_append_left _ hx
              omega

/- ------------------------------------------------------------------ -/
/- C6: cyclic imports terminate with each file's keywords once         -/
/- ------------------------------------------------------------------ -/

/-- Claim C6: for a file map in which `a` imports `b` and `b` imports `a`,
`effective_keywords(a)` terminates (the walk never exhausts its stack bound)
and its result lists the keywords of a duplicate-free set of visited files
containing both `a` and `b` — so every keyword of `a` and of `b` occurs,
and each file contributes its keyword block exactly once. -/
theorem C6_cycle (fm : List (String × ResourceFile)) (root : List String)
    (a b : String) (rfa rfb : ResourceFile)
    (ha : lookupFm fm a = some rfa) (hb : lookupFm fm b = some rfb)
    (hab : a ≠ b)
    (hiab : ∃ i ∈ rfa.imports, resolveImport fm root a i = some b)
    (hiba : ∃ i ∈ rfb.imports, resolveImport fm root b i = some a) :
    (scopeWalkO fm root a).isSome ∧
    ∃ ps : List String, ps.Nodup ∧ a ∈ ps ∧ b ∈ ps ∧
      ((ResourceResolver.mk fm root []).effective_keywords a).1 =
        ps.flatMap (keywordsOf fm) ∧
      (∀ k ∈ rfa.keywords,
        k ∈ ((ResourceResolver.mk fm root []).effective_keywords a).1) ∧
      (∀ k ∈ rfb.keywords,
        k ∈ ((ResourceResolver.mk fm root []).effective_keywords a).1) := by
  have hcnt : unvisitedCnt fm [] + 1 ≤ defaultFuel fm := by
    have h1 : unvisitedCnt fm [] ≤ fm.length := by
      unfold unvisitedCnt
      calc ((fm.map (fun p => p.1)).dedup.filter (fun k => k ∉ ([] : List String))).length
          ≤ (fm.map (fun p => p.1)).dedup.length :=
            (List.filter_sublist _).length_le
        _ ≤ (fm.map (fun p => p.1)).length := (List.dedup_sublist _).length_le
        _ = fm.length := List.length_map _ _
    unfold defaultFuel
    omega
  have hsome : (walkFuel fm root (defaultFuel fm) a [] []).isSome :=
    walk_isSome fm root (defaultFuel fm) a [] [] hcnt
  obtain ⟨out, hout⟩ := Option.isSome_iff_exists.mp hsome
  obtain ⟨⟨ns, e1, hnd, -, e2⟩, -, hamem⟩ :=
    walk_spec fm root (defaultFuel fm) a [] [] out hout
  have hbmem : b ∈ out.1 := by
    obtain ⟨i, hi, hres⟩ := hiab
    have hout' : walkFuel fm root (fm.length + 1 + 1) a [] [] = some out := hout
    exact walk_visits fm root (fm.length + 1) a [] [] out rfa hout'
      (by simp) ha i hi b hres
  have heff : ((ResourceResolver.mk fm root []).effective_keywords a).1 = out.2 := by
    simp only [ResourceResolver.effective_keywords, List.lookup]
    simp [scopeWalk, scopeWalkO, hout]
  have hps1 : out.1 = ns := by rw [e1]; rfl
  have hps2 : out.2 = ns.flatMap (keywordsOf fm) := by rw [e2]; rfl
  refine ⟨by rw [scopeWalkO, hout]; rfl, out.1, ?_, hamem, hbmem, ?_, ?_, ?_⟩
  · rw [hps1]; exact hnd
  · rw [heff, hps2, hps1]
  · intro k hk
    rw [heff, hps2]
    rw [hps1] at hamem
    exact List.mem_flatMap.mpr ⟨a, hamem, by simp [keywordsOf, ha, hk]⟩
  · intro k hk
    rw [heff, hps2]
    rw [hps1] at hbmem
    exact List.mem_flatMap.mpr ⟨b, hbmem, by simp [keywordsOf, hb, hk]⟩

/-- Witness for C6 at the concrete two-file cycle. -/
theorem C6_witness :
    (lookupFm cyclicFm "a.resource" = some cyclicRfa ∧
     lookupFm cyclicFm "b.resource" = some cyclicRfb ∧
     "a.resource" ≠ "b.resource" ∧
     (∃ i ∈ cyclicRfa.imports,
        resolveImport cyclicFm ["proj"] "a.resource" i = some "b.resource") ∧
     (∃ i ∈ cyclicRfb.imports,
        resolveImport cyclicFm ["proj"] "b.resource" i = some "a.resource")) ∧
    ((scopeWalkO cyclicFm ["proj"] "a.resource").isSome ∧
     ∃ ps : List String, ps.Nodup ∧ "a.resource" ∈ ps ∧ "b.resource" ∈ ps ∧
       ((ResourceResolver.mk cyclicFm ["proj"] []).effective_keywords
           "a.resource").1 = ps.flatMap (keywordsOf cyclicFm) ∧
       (∀ k ∈ cyclicRfa.keywords,
         k ∈ ((ResourceResolver.mk cyclicFm ["proj"] []).effective_keywords
           "a.resource").1) ∧
       (∀ k ∈ cyclicRfb.keywords,
         k ∈ ((ResourceResolver.mk cyclicFm ["proj"] []).effective_keywords
           "a.resource").1)) :=
  ⟨⟨by decide, by decide, by decide,
    ⟨"b.resource", by decide, by decide⟩,
    ⟨"a.resource", by decide, by decide⟩⟩,
   C6_cycle cyclicFm ["proj"] "a.resource" "b.resource" cyclicRfa cyclicRfb
     (by decide) (by decide) (by decide)
     ⟨"b.resource", by decide, by decide⟩
     ⟨"a.resource", by decide, by decide⟩⟩

/- ------------------------------------------------------------------ -/
/- Graph-state lemmas (towards C4 and C8)                              -/
/- ------------------------------------------------------------------ -/

lemma mergeSet_edges (s : GraphState) (l : GLabel) (u : String)
    (P : List (String × String)) : (s.mergeSet l u P).edges = s.edges := by
  unfold GraphState.mergeSet
  split <;> rfl

lemma mergeBare_edges (s : GraphState) (l : GLabel) (u : String) :
    (s.mergeBare l u).edges = s.edges := by
  unfold GraphState.mergeBare
  split <;> rfl

lemma addEdge_nodes (s : GraphState) (e : GEdge) :
    (s.addEdge e).nodes = s.nodes := by
  unfold GraphState.addEdge
  split <;> rfl

lemma addEdge_mem_self (s : GraphState) (e : GEdge) :
    e ∈ (s.addEdge e).edges := by
  unfold GraphState.addEdge
  split
  · assumption
  · simp

lemma addEdge_mem_of (s : GraphState) (e e' : GEdge) (h : e' ∈ s.edges) :
    e' ∈ (s.addEdge e).edges := by
  unfold GraphState.addEdge
  split
  · exact h
  · simp [h]

lemma addEdge_eq_of_mem (s : GraphState) (e : GEdge) (h : e ∈ s.edges) :
    s.addEdge e = s := by
  unfold GraphState.addEdge
  rw [if_pos h]

lemma foldl_addEdge_nodes (s : GraphState) (f : NodeKey → GEdge)
    (ks : List NodeKey) :
    (ks.foldl (fun st k => st.addEdge (f k)) s).nodes = s.nodes := by
  induction ks generalizing s with
  | nil => rfl
  | cons k ks ih => rw [List.foldl_cons, ih, addEdge_nodes]

lemma foldl_addEdge_mem_of (s : GraphState) (f : NodeKey → GEdge)
    (ks : List NodeKey) (e' : GEdge) (h : e' ∈ s.edges) :
    e' ∈ (ks.foldl (fun st k => st.addEdge (f k)) s).edges := by
  induction ks generalizing s with
  | nil => exact h
  | cons k ks ih => exact ih _ (addEdge_mem_of _ _ _ h)

lemma foldl_addEdge_mem_all (s : GraphState) (f : NodeKey → GEdge)
    (ks : List NodeKey) :
    ∀ k ∈ ks, f k ∈ (ks.foldl (fun st k => st.addEdge (f k)) s).edges := by
  induction ks generalizing s with
  | nil => intro k hk; cases hk
  | cons k0 ks ih =>
    intro k hk
    rw [List.foldl_cons]
    rcases List.mem_cons.mp hk with heq | hmem
    · rw [heq]
      exact foldl_addEdge_mem_of _ _ _ _ (addEdge_mem_self _ _)
    · exact ih _ k hmem

lemma foldl_addEdge_eq_of_all (s : GraphState) (f : NodeKey → GEdge)
    (ks : List NodeKey) (h : ∀ k ∈ ks, f k ∈ s.edges) :
    ks.foldl (fun st k => st.addEdge (f k)) s = s := by
  induction ks with
  | nil => rfl
  | cons k ks ih =>
    rw [List.foldl_cons, addEdge_eq_of_mem _ _ (h k (by simp))]
    exact ih (fun k' hk' => h k' (by simp [hk']))

lemma hasKey_iff (s : GraphState) (k : NodeKey) :
    s.hasKey k = true ↔ ∃ n ∈ s.nodes, n.key = k := by
  unfold GraphState.hasKey
  rw [List.any_eq_true]
  simp

lemma hasKey_mergeSet_of (s : GraphState) (l : GLabel) (u : String)
    (P : List (String × String)) (k : NodeKey) (h : s.hasKey k = true) :
    (s.mergeSet l u P).hasKey k = true := by
  rw [hasKey_iff] at h ⊢
  obtain ⟨n, hn, hk⟩ := h
  unfold GraphState.mergeSet
  split
  · exact ⟨if n.key = (some l, u) then { n with props := P } else n,
      List.mem_map.mpr ⟨n, hn, rfl⟩, by split <;> simpa⟩
  · exact ⟨n, by simp [hn], hk⟩

lemma hasKey_mergeSet_self (s : GraphState) (l : GLabel) (u : String)
    (P : List (String × String)) :
    (s.mergeSet l u P).hasKey (some l, u) = true := by
  unfold GraphState.mergeSet
  split
  · next hcond =>
    rw [hasKey_iff] at hcond ⊢
    obtain ⟨n, hn, hk⟩ := hcond
    refine ⟨{ key := n.key, props := P }, ?_, hk⟩
    apply List.mem_map.mpr
    exact ⟨n, hn, by simp [hk]⟩
  · rw [hasKey_iff]
    exact ⟨{ key := (some l, u), props := P }, by simp, rfl⟩

lemma hasKey_mergeBare_of (s : GraphState) (l : GLabel) (u : String)
    (k : NodeKey) (h : s.hasKey k = true) :
    (s.mergeBare l u).hasKey k = true := by
  unfold GraphState.mergeBare
  split
  · exact h
  · rw [hasKey_iff] at h ⊢
    obtain ⟨n, hn, hk⟩ := h
    exact ⟨n, by simp [hn], hk⟩

lemma hasKey_mergeBare_self (s : GraphState) (l : GLabel) (u : String) :
    (s.mergeBare l u).hasKey (some l, u) = true := by
  unfold GraphState.mergeBare
  split
  · assumption
  · rw [hasKey_iff]
    exact ⟨{ key := (some l, u), props := [] }, by simp, rfl⟩

lemma hasKey_exec_of (s : GraphState) (t : GStmt) (k : NodeKey)
    (h : s.hasKey k = true) : (execStmt s t).hasKey k = true := by
  cases t with
  | mergeSetNode l u P => exact hasKey_mergeSet_of _ _ _ _ _ h
  | mergeImport a b =>
    show ((((s.mergeBare .File a).mergeBare .File b)).addEdge _).hasKey k = true
    rw [hasKey_iff]
    rw [addEdge_nodes]
    exact (hasKey_iff _ _).mp
      (hasKey_mergeBare_of _ _ _ _ (hasKey_mergeBare_of _ _ _ _ h))
  | matchEdge l1 u1 l2 u2 ty =>
    simp only [execStmt]
    split
    · rw [hasKey_iff, addEdge_nodes]
      exact (hasKey_iff _ _).mp h
    · exact h
  | mergeCalls l src tgt =>
    simp only [execStmt]
    have h1 : (s.mergeBare l src).hasKey k = true := hasKey_mergeBare_of _ _ _ _ h
    split
    · rw [hasKey_iff, addEdge_nodes]
      rw [hasKey_iff] at h1
      obtain ⟨n, hn, hk⟩ := h1
      exact ⟨n, by simp [hn], hk⟩
    · rw [hasKey_iff]
      rw [foldl_addEdge_nodes]
      exact (hasKey_iff _ _).mp h1

lemma edges_exec_of (s : GraphState) (t : GStmt) (e : GEdge)
    (h : e ∈ s.edges) : e ∈ (execStmt s t).edges := by
  cases t with
  | mergeSetNode l u P =>
    show e ∈ (s.mergeSet l u P).edges
    rw [mergeSet_edges]
    exact h
  | mergeImport a b =>
    show e ∈ ((((s.mergeBare .File a).mergeBare .File b)).addEdge _).edges
    apply addEdge_mem_of
    rw [mergeBare_edges, mergeBare_edges]
    exact h
  | matchEdge l1 u1 l2 u2 ty =>
    simp only [execStmt]
    split
    · exact addEdge_mem_of _ _ _ h
    · exact h
  | mergeCalls l src tgt =>
    simp only [execStmt]
    have h1 : e ∈ (s.mergeBare l src).edges := by rw [mergeBare_edges]; exact h
    split
    · exact addEdge_mem_of _ _ _ h1
    · exact foldl_addEdge_mem_of _ _ _ _ h1

lemma keysWithUid_mem_iff (s : GraphState) (u : String) (k : NodeKey) :
    k ∈ s.keysWithUid u ↔ (∃ n ∈ s.nodes, n.key = k) ∧ k.2 = u := by
  unfold GraphState.keysWithUid
  simp only [List.mem_map, List.mem_filter, decide_eq_true_eq]
  constructor
  · rintro ⟨n, ⟨hn, hu⟩, rfl⟩
    exact ⟨⟨n, hn, rfl⟩, hu⟩
  · rintro ⟨⟨n, hn, rfl⟩, hu⟩
    exact ⟨n, ⟨hn, hu⟩, rfl⟩

lemma keysWithUid_mono (s : GraphState) (t : GStmt) (u : String) :
    ∀ k ∈ s.keysWithUid u, k ∈ (execStmt s t).keysWithUid u := by
  intro k hk
  rw [keysWithUid_mem_iff] at hk ⊢
  obtain ⟨⟨n, hn, hkey⟩, hu⟩ := hk
  have hh : s.hasKey k = true := (hasKey_iff _ _).mpr ⟨n, hn, hkey⟩
  exact ⟨(hasKey_iff _ _).mp (hasKey_exec_of s t k hh), hu⟩

lemma keysWithUid_map_fix (nodes : List GNode) (f : GNode → GNode)
    (hf : ∀ n, (f n).key = n.key) (u : String) :
    ((nodes.map f).filter (fun n => n.key.2 = u)).map (fun n => n.key)
      = (nodes.filter (fun n => n.key.2 = u)).map (fun n => n.key) := by
  induction nodes with
  | nil => rfl
  | cons n ns ih =>
    by_cases hc : n.key.2 = u
    · rw [List.map_cons,
        List.filter_cons_of_pos (by simp [hf, hc]),
        List.filter_cons_of_pos (by simp [hc]),
        List.map_cons, List.map_cons, hf, ih]
    · rw [List.map_cons,
        List.filter_cons_of_neg (by simp [hf, hc]),
        List.filter_cons_of_neg (by simp [hc]), ih]

lemma keysWithUid_mergeSet_ne (s : GraphState) (l : GLabel) (u' : String)
    (P : List (String × String)) (u : String) (h : u' ≠ u) :
    (s.mergeSet l u' P).keysWithUid u = s.keysWithUid u := by
  unfold GraphState.mergeSet
  split
  · unfold GraphState.keysWithUid
    exact keysWithUid_map_fix s.nodes _ (fun n => by split <;> rfl) u
  · unfold GraphState.keysWithUid
    rw [List.filter_append]
    simp [h]

lemma keysWithUid_mergeBare_ne (s : GraphState) (l : GLabel) (u' u : String)
    (h : u' ≠ u) : (s.mergeBare l u').keysWithUid u = s.keysWithUid u := by
  unfold GraphState.mergeBare
  split
  · rfl
  · unfold GraphState.keysWithUid
    rw [List.filter_append]
    simp [h]

lemma keysWithUid_addEdge (s : GraphState) (e : GEdge) (u : String) :
    (s.addEdge e).keysWithUid u = s.keysWithUid u := by
  unfold GraphState.keysWithUid
  rw [addEdge_nodes]

lemma keysWithUid_foldl_addEdge (s : GraphState) (f : NodeKey → GEdge)
    (ks : List NodeKey) (u : String) :
    ((ks.foldl (fun st k => st.addEdge (f k)) s)).keysWithUid u
      = s.keysWithUid u := by
  unfold GraphState.keysWithUid
  rw [foldl_addEdge_nodes]

lemma keysWithUid_exec_stable (s : GraphState) (t : GStmt) (u : String)
    (hstat : ¬ StmtCreatesUid t u) (hne : s.keysWithUid u ≠ []) :
    (execStmt s t).keysWithUid u = s.keysWithUid u := by
  cases t with
  | mergeSetNode l u' P =>
    exact keysWithUid_mergeSet_ne s l u' P u
      (fun he => hstat (by simpa [StmtCreatesUid] using he))
  | mergeImport a b =>
    have ha : a ≠ u := fun he => hstat (by simp [StmtCreatesUid, he])
    have hb : b ≠ u := fun he => hstat (by simp [StmtCreatesUid, he])
    simp only [execStmt]
    rw [keysWithUid_addEdge, keysWithUid_mergeBare_ne _ _ _ _ hb,
      keysWithUid_mergeBare_ne _ _ _ _ ha]
  | matchEdge l1 u1 l2 u2 ty =>
    simp only [execStmt]
    split
    · rw [keysWithUid_addEdge]
    · rfl
  | mergeCalls l src tgt =>
    have hsrc : src ≠ u := fun he => hstat (by simpa [StmtCreatesUid] using he)
    simp only [execStmt]
    have hbare : (s.mergeBare l src).keysWithUid u = s.keysWithUid u :=
      keysWithUid_mergeBare_ne _ _ _ _ hsrc
    split
    · next hempty =>
      by_cases htgt : tgt = u
      · exfalso
        rw [htgt, hbare] at hempty
        rw [List.isEmpty_iff] at hempty
        exact hne hempty
      · rw [keysWithUid_addEdge]
        unfold GraphState.keysWithUid
        rw [List.filter_append]
        have : ([({ key := (none, tgt), props := [] } : GNode)].filter
            (fun n => n.key.2 = u)) = [] := by simp [htgt]
        rw [this, List.append_nil]
        exact hbare
    · rw [keysWithUid_foldl_addEdge]
      exact hbare

lemma mergeBare_eq_of_hasKey (s : GraphState) (l : GLabel) (u : String)
    (h : s.hasKey (some l, u) = true) : s.mergeBare l u = s := by
  unfold GraphState.mergeBare
  rw [if_pos h]

lemma props_mergeSet (s : GraphState) (l' : GLabel) (u' : String)
    (P' : List (String × String)) (k : NodeKey) (P : List (String × String))
    (hsafe : ((some l', u') : NodeKey) = k → P' = P)
    (hinv : ∀ n ∈ s.nodes, n.key = k → n.props = P) :
    ∀ n ∈ (s.mergeSet l' u' P').nodes, n.key = k → n.props = P := by
  unfold GraphState.mergeSet
  split
  · intro n hn hk
    obtain ⟨m, hm, rfl⟩ := List.mem_map.mp hn
    by_cases hmk : m.key = (some l', u')
    · rw [if_pos hmk]
      rw [if_pos hmk] at hk
      have hk2 : m.key = k := hk
      exact hsafe (by rw [← hmk]; exact hk2)
    · rw [if_neg hmk]
      rw [if_neg hmk] at hk
      exact hinv m hm hk
  · intro n hn hk
    rcases List.mem_append.mp hn with hold | hnew
    · exact hinv n hold hk
    · rw [List.mem_singleton] at hnew
      rw [hnew] at hk ⊢
      exact hsafe hk

lemma props_mergeBare (s : GraphState) (l'' : GLabel) (u'' : String)
    (k : NodeKey) (P : List (String × String))
    (hk : s.hasKey k = true)
    (hinv : ∀ n ∈ s.nodes, n.key = k → n.props = P) :
    ∀ n ∈ (s.mergeBare l'' u'').nodes, n.key = k → n.props = P := by
  unfold GraphState.mergeBare
  split
  · exact hinv
  · next hcond =>
    intro n hn hkey
    rcases List.mem_append.mp hn with hold | hnew
    · exact hinv n hold hkey
    · rw [List.mem_singleton] at hnew
      exfalso
      apply hcond
      have hke : ((some l'', u'') : NodeKey) = k := by rw [← hkey, hnew]
      rw [hke]
      exact hk

lemma props_exec (s : GraphState) (t' : GStmt) (l : GLabel) (u : String)
    (P : List (String × String))
    (hsafe : ∀ l' u' P', t' = GStmt.mergeSetNode l' u' P' → l' = l → u' = u → P' = P)
    (hk : s.hasKey (some l, u) = true)
    (hinv : ∀ n ∈ s.nodes, n.key = (some l, u) → n.props = P) :
    ∀ n ∈ (execStmt s t').nodes, n.key = (some l, u) → n.props = P := by
  cases t' with
  | mergeSetNode l' u' P' =>
    show ∀ n ∈ (s.mergeSet l' u' P').nodes, n.key = (some l, u) → n.props = P
    apply props_mergeSet s l' u' P' (some l, u) P ?_ hinv
    intro he
    obtain ⟨h1, h2⟩ := Prod.mk.inj he
    exact hsafe l' u' P' rfl (Option.some.inj h1) h2
  | mergeImport a b =>
    simp only [execStmt]
    intro n hn
    rw [addEdge_nodes] at hn
    exact props_mergeBare _ _ _ _ _
      (hasKey_mergeBare_of _ _ _ _ hk)
      (props_mergeBare _ _ _ _ _ hk hinv) n hn
  | matchEdge l1 u1 l2 u2 ty =>
    simp only [execStmt]
    split
    · intro n hn
      rw [addEdge_nodes] at hn
      exact hinv n hn
    · exact hinv
  | mergeCalls l'' src tgt =>
    simp only [execStmt]
    split
    · intro n hn
      rw [addEdge_nodes] at hn
      rcases List.mem_append.mp hn with hold | hnew
      · exact props_mergeBare _ _ _ _ _ hk hinv n hold
      · rw [List.mem_singleton] at hnew
        intro hkey
        rw [hnew] at hkey
        cases hkey
    · intro n hn
      rw [foldl_addEdge_nodes] at hn
      exact props_mergeBare _ _ _ _ _ hk hinv n hn

lemma stmtDone_establish (s : GraphState) (t : GStmt)
    (hpre : StmtPre s t) : StmtDone (execStmt s t) t := by
  cases t with
  | mergeSetNode l u P =>
    refine ⟨hasKey_mergeSet_self s l u P, ?_⟩
    show ∀ n ∈ (s.mergeSet l u P).nodes, n.key = (some l, u) → n.props = P
    unfold GraphState.mergeSet
    split
    · intro n hn hk
      obtain ⟨m, hm, rfl⟩ := List.mem_map.mp hn
      by_cases hmk : m.key = (some l, u)
      · rw [if_pos hmk]
      · rw [if_neg hmk]
        rw [if_neg hmk] at hk
        exact absurd hk hmk
    · next hcond =>
      intro n hn hk
      rcases List.mem_append.mp hn with hold | hnew
      · exfalso
        exact hcond ((hasKey_iff _ _).mpr ⟨n, hold, hk⟩)
      · rw [List.mem_singleton] at hnew
        rw [hnew]
  | mergeImport a b =>
    simp only [execStmt]
    refine ⟨?_, ?_, addEdge_mem_self _ _⟩
    · rw [hasKey_iff, addEdge_nodes]
      exact (hasKey_iff _ _).mp
        (hasKey_mergeBare_of _ _ _ _ (hasKey_mergeBare_self s .File a))
    · rw [hasKey_iff, addEdge_nodes]
      exact (hasKey_iff _ _).mp (hasKey_mergeBare_self _ .File b)
  | matchEdge l1 u1 l2 u2 ty =>
    obtain ⟨h1, h2⟩ := hpre
    simp only [execStmt]
    rw [if_pos (by rw [h1, h2]; rfl)]
    refine ⟨?_, ?_, addEdge_mem_self _ _⟩
    · rw [hasKey_iff, addEdge_nodes]
      exact (hasKey_iff _ _).mp h1
    · rw [hasKey_iff, addEdge_nodes]
      exact (hasKey_iff _ _).mp h2
  | mergeCalls l src tgt =>
    simp only [execStmt]
    split
    · next hempty =>
      have hbk := hasKey_mergeBare_self s l src
      rw [List.isEmpty_iff] at hempty
      have hfilter : (s.mergeBare l src).nodes.filter
          (fun n => n.key.2 = tgt) = [] := by
        have := hempty
        unfold GraphState.keysWithUid at this
        exact List.map_eq_nil_iff.mp this
      refine ⟨?_, ?_, ?_⟩
      · rw [hasKey_iff, addEdge_nodes]
        rw [hasKey_iff] at hbk
        obtain ⟨n, hn, hk⟩ := hbk
        exact ⟨n, by simp [hn], hk⟩
      · rw [keysWithUid_addEdge]
        unfold GraphState.keysWithUid
        rw [List.filter_append, hfilter]
        simp
      · intro k hk
        rw [keysWithUid_addEdge] at hk
        unfold GraphState.keysWithUid at hk
        rw [List.filter_append, hfilter, List.nil_append] at hk
        simp only [List.filter_cons, List.filter_nil] at hk
        have hk' : k = ((none, tgt) : NodeKey) := by simpa using hk
        rw [hk']
        exact addEdge_mem_self _ _
    · next hempty =>
      refine ⟨?_, ?_, ?_⟩
      · rw [hasKey_iff, foldl_addEdge_nodes]
        exact (hasKey_iff _ _).mp (hasKey_mergeBare_self s l src)
      · rw [keysWithUid_foldl_addEdge]
        intro hnil
        rw [hnil] at hempty
        simp at hempty
      · intro k hk
        rw [keysWithUid_foldl_addEdge] at hk
        exact foldl_addEdge_mem_all _ _ _ k hk

lemma stmtDone_preserve (s : GraphState) (t t' : GStmt)
    (hd : StmtDone s t) (hs : StmtSafe t t') :
    StmtDone (execStmt s t') t := by
  cases t with
  | mergeSetNode l u P =>
    obtain ⟨h1, h2⟩ := hd
    exact ⟨hasKey_exec_of s t' _ h1, props_exec s t' l u P hs h1 h2⟩
  | mergeImport a b =>
    obtain ⟨h1, h2, h3⟩ := hd
    exact ⟨hasKey_exec_of s t' _ h1, hasKey_exec_of s t' _ h2,
      edges_exec_of s t' _ h3⟩
  | matchEdge l1 u1 l2 u2 ty =>
    obtain ⟨h1, h2, h3⟩ := hd
    exact ⟨hasKey_exec_of s t' _ h1, hasKey_exec_of s t' _ h2,
      edges_exec_of s t' _ h3⟩
  | mergeCalls l src tgt =>
    obtain ⟨h1, h2, h3⟩ := hd
    have hstable := keysWithUid_exec_stable s t' tgt hs h2
    refine ⟨hasKey_exec_of s t' _ h1, ?_, ?_⟩
    · rw [hstable]
      exact h2
    · intro k hk
      rw [hstable] at hk
      exact edges_exec_of s t' _ (h3 k hk)

lemma stmtDone_foldl (s : GraphState) (t : GStmt) (L : List GStmt)
    (hd : StmtDone s t) (hs : ∀ t' ∈ L, StmtSafe t t') :
    StmtDone (L.foldl execStmt s) t := by
  induction L generalizing s with
  | nil => exact hd
  | cons t' L ih =>
    rw [List.foldl_cons]
    exact ih _ (stmtDone_preserve s t t' hd (hs t' (by simp)))
      (fun ta hta => hs ta (by simp [hta]))

lemma exec_eq_of_done (s : GraphState) (t : GStmt)
    (hd : StmtDone s t) : execStmt s t = s := by
  cases t with
  | mergeSetNode l u P =>
    obtain ⟨h1, h2⟩ := hd
    show s.mergeSet l u P = s
    unfold GraphState.mergeSet
    rw [if_pos h1]
    have hmap : s.nodes.map (fun n =>
        if n.key = (some l, u) then { n with props := P } else n)
        = s.nodes.map id := by
      apply List.map_congr_left
      intro n hn
      by_cases hk : n.key = (some l, u)
      · rw [if_pos hk]
        have hp := h2 n hn hk
        cases n
        simp only [id]
        rw [← hp]
      · rw [if_neg hk]
        rfl
    rw [hmap, List.map_id]
  | mergeImport a b =>
    obtain ⟨h1, h2, h3⟩ := hd
    simp only [execStmt]
    rw [mergeBare_eq_of_hasKey s .File a h1, mergeBare_eq_of_hasKey s .File b h2]
    exact addEdge_eq_of_mem s _ h3
  | matchEdge l1 u1 l2 u2 ty =>
    obtain ⟨h1, h2, h3⟩ := hd
    simp only [execStmt]
    rw [if_pos (by rw [h1, h2]; rfl)]
    exact addEdge_eq_of_mem s _ h3
  | mergeCalls l src tgt =>
    obtain ⟨h1, h2, h3⟩ := hd
    simp only [execStmt]
    rw [mergeBare_eq_of_hasKey s l src h1]
    split
    · next hempty =>
      rw [List.isEmpty_iff] at hempty
      exact absurd hempty h2
    · exact foldl_addEdge_eq_of_all s _ _ h3

lemma foldl_eq_of_all (s : GraphState) (L : List GStmt)
    (h : ∀ t ∈ L, execStmt s t = s) : L.foldl execStmt s = s := by
  induction L with
  | nil => rfl
  | cons t L ih =>
    rw [List.foldl_cons, h t (by simp)]
    exact ih (fun ta hta => h ta (by simp [hta]))

lemma run_all (L : List GStmt) :
    ∀ (s : GraphState) (done : List GStmt),
      (∀ td ∈ done, StmtDone s td) →
      (∀ ta ∈ done ++ L, ∀ t' ∈ L, StmtSafe ta t') →
      WFFrom done L →
      ∀ ta ∈ done ++ L, StmtDone (L.foldl execStmt s) ta := by
  induction L with
  | nil =>
    intro s done hdone _ _ ta hta
    rw [List.append_nil] at hta
    exact hdone ta hta
  | cons t L ih =>
    intro s done hdone hsafe hwf
    have hpre : StmtPre s t := by
      cases t with
      | matchEdge l1 u1 l2 u2 ty =>
        have hwf0 := hwf [] (GStmt.matchEdge l1 u1 l2 u2 ty) L rfl
        obtain ⟨⟨P1, hP1⟩, ⟨P2, hP2⟩⟩ := hwf0
        rw [List.append_nil] at hP1 hP2
        exact ⟨(hdone _ hP1).1, (hdone _ hP2).1⟩
      | mergeSetNode l u P => trivial
      | mergeImport a b => trivial
      | mergeCalls l src tgt => trivial
    have hd1 : StmtDone (execStmt s t) t := stmtDone_establish s t hpre
    have hdone1 : ∀ td ∈ done ++ [t], StmtDone (execStmt s t) td := by
      intro td htd
      rcases List.mem_append.mp htd with hold | hnew
      · exact stmtDone_preserve s td t (hdone td hold)
          (hsafe td (List.mem_append_left _ hold) t (by simp))
      · rw [List.mem_singleton] at hnew
        rw [hnew]
        exact hd1
    have hsafe1 : ∀ ta ∈ (done ++ [t]) ++ L, ∀ t' ∈ L, StmtSafe ta t' := by
      intro ta hta t' ht'
      apply hsafe ta _ t' (by simp [ht'])
      rw [List.append_assoc] at hta
      simpa using hta
    have hwf1 : WFFrom (done ++ [t]) L := by
      intro D t0 rest hsplit
      have := hwf (t :: D) t0 rest (by rw [hsplit, List.cons_append])
      rw [List.append_assoc]
      exact this
    have hres := ih (execStmt s t) (done ++ [t]) hdone1 hsafe1 hwf1
    intro ta hta
    rw [List.foldl_cons]
    apply hres
    rw [List.append_assoc]
    simpa using hta

lemma wfFrom_append (ctx A B : List GStmt)
    (hA : WFFrom ctx A) (hB : WFFrom (ctx ++ A) B) :
    WFFrom ctx (A ++ B) := by
  intro D t rest hsplit
  rcases List.append_eq_append_iff.mp hsplit with ⟨a', hD, hB'⟩ | ⟨c', hA', hrest⟩
  · have hpre := hB a' t rest hB'
    rw [hD, ← List.append_assoc]
    exact hpre
  · cases c' with
    | nil =>
      rw [List.append_nil] at hA'
      have hpre := hB [] t rest (by simpa using hrest.symm)
      rw [List.append_nil] at hpre
      rw [← hA']
      exact hpre
    | cons t' c'' =>
      obtain ⟨ht, hrest'⟩ := List.cons.inj hrest
      rw [ht]
      exact hA D t' c'' (by rw [hA'])

lemma preFromDone_mono (ds ds' : List GStmt)
    (hsub : ∀ x ∈ ds, x ∈ ds') (t : GStmt)
    (h : PreFromDone ds t) : PreFromDone ds' t := by
  cases t with
  | matchEdge l1 u1 l2 u2 ty =>
    obtain ⟨⟨P1, hP1⟩, ⟨P2, hP2⟩⟩ := h
    exact ⟨⟨P1, hsub _ hP1⟩, ⟨P2, hsub _ hP2⟩⟩
  | mergeSetNode l u P => trivial
  | mergeImport a b => trivial
  | mergeCalls l src tgt => trivial

lemma wfFrom_of_noMatch (ctx L : List GStmt)
    (h : ∀ t ∈ L, ∀ ds : List GStmt, PreFromDone ds t) : WFFrom ctx L := by
  intro D t rest hsplit
  exact h t (by rw [hsplit]; exact List.mem_append_right _ (by simp)) _

lemma wfFrom_flatMap {γ : Type} (gen : List γ) (mk : γ → List GStmt) :
    ∀ (ctx : List GStmt),
      (∀ g ∈ gen, ∀ ctx' : List GStmt,
        (∀ x ∈ ctx, x ∈ ctx') → WFFrom ctx' (mk g)) →
      WFFrom ctx (gen.flatMap mk) := by
  induction gen with
  | nil =>
    intro ctx _ D t rest hsplit
    exact absurd hsplit (by simp)
  | cons g gen ih =>
    intro ctx h
    rw [List.flatMap_cons]
    apply wfFrom_append
    · exact h g (by simp) ctx (fun x hx => hx)
    · apply ih
      intro g' hg' ctx' hsub
      exact h g' (by simp [hg']) ctx'
        (fun x hx => hsub x (List.mem_append_left _ hx))

lemma wf_pair (ctx : List GStmt) (l1 : GLabel) (u1 : String)
    (l2 : GLabel) (u2 : String) (P2 : List (String × String)) (ty : String)
    (hctx : ∃ P1, GStmt.mergeSetNode l1 u1 P1 ∈ ctx) :
    WFFrom ctx [GStmt.mergeSetNode l2 u2 P2,
      GStmt.matchEdge l1 u1 l2 u2 ty] := by
  intro D t rest hsplit
  cases D with
  | nil =>
    obtain ⟨ht, -⟩ := List.cons.inj hsplit
    rw [← ht]
    trivial
  | cons d0 D' =>
    obtain ⟨hd0, hrest⟩ := List.cons.inj hsplit
    cases D' with
    | nil =>
      obtain ⟨ht, -⟩ := List.cons.inj hrest
      rw [← ht]
      obtain ⟨P1, hP1⟩ := hctx
      constructor
      · exact ⟨P1, List.mem_append_left _ hP1⟩
      · exact ⟨P2, by simp [← hd0]⟩
    | cons d1 D'' =>
      obtain ⟨-, hrest2⟩ := List.cons.inj hrest
      exact absurd hrest2 (by simp)

lemma wf_kwStmts (rf : ResourceFile) (kw : KeywordDef) (ctx : List GStmt)
    (hfile : ∃ P, GStmt.mergeSetNode .File rf.rel_path P ∈ ctx) :
    WFFrom ctx (kwStmts rf kw) := by
  unfold kwStmts
  apply wfFrom_append
  · apply wfFrom_append
    · exact wf_pair ctx .File rf.rel_path .Keyword kw.fqn (kwProps rf kw)
        "DEFINES" hfile
    · apply wfFrom_of_noMatch
      intro t ht ds
      obtain ⟨c, -, hc⟩ := List.mem_map.mp ht
      rw [← hc]
      trivial
  · apply wfFrom_flatMap
    intro tg htg ctx' hsub
    apply wf_pair
    refine ⟨kwProps rf kw, hsub _ ?_⟩
    exact List.mem_append_right _ (List.mem_append_left _ (by simp))

lemma wf_tcStmts (rf : ResourceFile) (tc : TestCaseDef) (ctx : List GStmt)
    (hfile : ∃ P, GStmt.mergeSetNode .File rf.rel_path P ∈ ctx) :
    WFFrom ctx (tcStmts rf tc) := by
  unfold tcStmts
  apply wfFrom_append
  · apply wfFrom_append
    · exact wf_pair ctx .File rf.rel_path .TestCase tc.fqn (tcProps rf tc)
        "TESTS" hfile
    · apply wfFrom_of_noMatch
      intro t ht ds
      obtain ⟨c, -, hc⟩ := List.mem_map.mp ht
      rw [← hc]
      trivial
  · apply wfFrom_flatMap
    intro tg htg ctx' hsub
    apply wf_pair
    refine ⟨tcProps rf tc, hsub _ ?_⟩
    exact List.mem_append_right _ (List.mem_append_left _ (by simp))

lemma fileStmts_wf (rf : ResourceFile) : WFFrom [] (fileStmts rf) := by
  unfold fileStmts
  refine wfFrom_append _ _ _ (wfFrom_append _ _ _ (wfFrom_append _ _ _
    (wfFrom_append _ _ _ (wfFrom_append _ _ _ ?hs1 ?hs2) ?hs3) ?hs4) ?hs5) ?hs6
  case hs1 =>
    apply wfFrom_of_noMatch
    intro t ht ds
    rw [List.mem_singleton] at ht
    rw [ht]
    trivial
  case hs2 =>
    apply wfFrom_of_noMatch
    intro t ht ds
    obtain ⟨i, -, hi⟩ := List.mem_map.mp ht
    rw [← hi]
    trivial
  case hs3 =>
    apply wfFrom_flatMap
    intro kw hkw ctx' hsub
    exact wf_kwStmts rf kw ctx' ⟨fileProps rf, hsub _ (by simp)⟩
  case hs4 =>
    apply wfFrom_flatMap
    intro tc htc ctx' hsub
    exact wf_tcStmts rf tc ctx' ⟨fileProps rf, hsub _ (by simp)⟩
  case hs5 =>
    apply wfFrom_flatMap
    intro v hv ctx' hsub
    apply wf_pair
    exact ⟨fileProps rf, hsub _ (by simp)⟩
  case hs6 =>
    apply wfFrom_flatMap
    intro lm hlm ctx' hsub
    apply wf_pair
    exact ⟨fileProps rf, hsub _ (by simp)⟩

lemma strApp_cancel (p a b : String) (h : p ++ a = p ++ b) : a = b := by
  have hd : p.data ++ a.data = p.data ++ b.data := by
    rw [← String.data_append, ← String.data_append, h]
  have hab : a.data = b.data := List.append_cancel_left hd
  cases a
  cases b
  simp only at hab
  rw [hab]

lemma find?_nodup_eq {α : Type} (L : List α) (f : α → String)
    (hnd : (L.map f).Nodup) (x : α) (hx : x ∈ L) :
    L.find? (fun y => f y == f x) = some x := by
  cases hf : L.find? (fun y => f y == f x) with
  | none =>
    have hnone := List.find?_eq_none.mp hf x hx
    simp at hnone
  | some y =>
    have h1 : f y = f x := by
      have := List.find?_some hf
      simpa using this
    have h2 := List.mem_of_find?_eq_some hf
    have h3 := List.inj_on_of_nodup_map hnd h2 hx h1
    rw [h3]

lemma mergeSetNode_mem_shape (rf : ResourceFile) (l : GLabel) (u : String)
    (P : List (String × String))
    (h : GStmt.mergeSetNode l u P ∈ fileStmts rf) :
    (l = .File ∧ u = rf.rel_path ∧ P = fileProps rf) ∨
    (∃ kw ∈ rf.keywords, l = .Keyword ∧ u = kw.fqn ∧ P = kwProps rf kw) ∨
    (∃ tc ∈ rf.test_cases, l = .TestCase ∧ u = tc.fqn ∧ P = tcProps rf tc) ∨
    (l = .Tag ∧ P = [("node_type", "tag")] ∧
      ((∃ kw ∈ rf.keywords, ∃ tg ∈ kw.tags, u = "tag:" ++ tg) ∨
       (∃ tc ∈ rf.test_cases, ∃ tg ∈ tc.tags, u = "tag:" ++ tg))) ∨
    (∃ v ∈ rf.variable_defs, l = .Variable ∧ u = "var:" ++ v.name ∧
      P = varProps rf v) ∨
    (∃ lm ∈ rf.locator_mappings, l = .LocatorElement ∧
      u = "element:" ++ lm.element_name ∧ P = elemProps lm) := by
  unfold fileStmts at h
  simp only [List.mem_append] at h
  rcases h with ((((h | h) | h) | h) | h) | h
  · rw [List.mem_singleton] at h
    injection h with hl hu hP
    exact Or.inl ⟨hl, hu, hP⟩
  · obtain ⟨i, -, hi⟩ := List.mem_map.mp h
    simp at hi
  · obtain ⟨kw, hkw, hm⟩ := List.mem_flatMap.mp h
    unfold kwStmts at hm
    simp only [List.mem_append] at hm
    rcases hm with (hm | hm) | hm
    · rw [List.mem_cons, List.mem_singleton] at hm
      rcases hm with hm | hm
      · injection hm with hl hu hP
        exact Or.inr (Or.inl ⟨kw, hkw, hl, hu, hP⟩)
      · simp at hm
    · obtain ⟨c, -, hc⟩ := List.mem_map.mp hm
      simp at hc
    · obtain ⟨tg, htg, hmt⟩ := List.mem_flatMap.mp hm
      rw [List.mem_cons, List.mem_singleton] at hmt
      rcases hmt with hmt | hmt
      · injection hmt with hl hu hP
        exact Or.inr (Or.inr (Or.inr (Or.inl
          ⟨hl, hP, Or.inl ⟨kw, hkw, tg, htg, hu⟩⟩)))
      · simp at hmt
  · obtain ⟨tc, htc, hm⟩ := List.mem_flatMap.mp h
    unfold tcStmts at hm
    simp only [List.mem_append] at hm
    rcases hm with (hm | hm) | hm
    · rw [List.mem_cons, List.mem_singleton] at hm
      rcases hm with hm | hm
      · injection hm with hl hu hP
        exact Or.inr (Or.inr (Or.inl ⟨tc, htc, hl, hu, hP⟩))
      · simp at hm
    · obtain ⟨c, -, hc⟩ := List.mem_map.mp hm
      simp at hc
    · obtain ⟨tg, htg, hmt⟩ := List.mem_flatMap.mp hm
      rw [List.mem_cons, List.mem_singleton] at hmt
      rcases hmt with hmt | hmt
      · injection hmt with hl hu hP
        exact Or.inr (Or.inr (Or.inr (Or.inl
          ⟨hl, hP, Or.inr ⟨tc, htc, tg, htg, hu⟩⟩)))
      · simp at hmt
  · obtain ⟨v, hv, hm⟩ := List.mem_flatMap.mp h
    rw [List.mem_cons, List.mem_singleton] at hm
    rcases hm with hm | hm
    · injection hm with hl hu hP
      exact Or.inr (Or.inr (Or.inr (Or.inr (Or.inl ⟨v, hv, hl, hu, hP⟩))))
    · simp at hm
  · obtain ⟨lm, hlm, hm⟩ := List.mem_flatMap.mp h
    rw [List.mem_cons, List.mem_singleton] at hm
    rcases hm with hm | hm
    · injection hm with hl hu hP
      exact Or.inr (Or.inr (Or.inr (Or.inr (Or.inr ⟨lm, hlm, hl, hu, hP⟩))))
    · simp at hm

lemma mergeImport_mem_shape (rf : ResourceFile) (a b : String)
    (h : GStmt.mergeImport a b ∈ fileStmts rf) :
    a = rf.rel_path ∧ b ∈ rf.imports := by
  unfold fileStmts at h
  simp only [List.mem_append] at h
  rcases h with ((((h | h) | h) | h) | h) | h
  · simp at h
  · obtain ⟨i, hi, heq⟩ := List.mem_map.mp h
    injection heq with h1 h2
    exact ⟨h1.symm, h2 ▸ hi⟩
  · obtain ⟨kw, -, hm⟩ := List.mem_flatMap.mp h
    simp [kwStmts] at hm
  · obtain ⟨tc, -, hm⟩ := List.mem_flatMap.mp h
    simp [tcStmts] at hm
  · obtain ⟨v, -, hm⟩ := List.mem_flatMap.mp h
    simp at hm
  · obtain ⟨lm, -, hm⟩ := List.mem_flatMap.mp h
    simp at hm

lemma mergeCalls_mem_shape (rf : ResourceFile) (l : GLabel) (src tgt : String)
    (h : GStmt.mergeCalls l src tgt ∈ fileStmts rf) :
    tgt ∈ callTargets rf ∧ src ∈ createdLabeledUids rf := by
  unfold fileStmts at h
  simp only [List.mem_append] at h
  rcases h with ((((h | h) | h) | h) | h) | h
  · simp at h
  · obtain ⟨i, -, hi⟩ := List.mem_map.mp h
    simp at hi
  · obtain ⟨kw, hkw, hm⟩ := List.mem_flatMap.mp h
    unfold kwStmts at hm
    simp only [List.mem_append] at hm
    rcases hm with (hm | hm) | hm
    · simp at hm
    · obtain ⟨c, hc, heq⟩ := List.mem_map.mp hm
      injection heq with h1 h2 h3
      constructor
      · have htgt : tgt ∈ rf.keywords.flatMap (fun kw => kw.called_keywords) :=
          List.mem_flatMap.mpr ⟨kw, hkw, h3 ▸ hc⟩
        unfold callTargets
        exact List.mem_append_left _ htgt
      · have hsrc : src ∈ rf.keywords.map (fun kw => kw.fqn) :=
          List.mem_map.mpr ⟨kw, hkw, h2⟩
        simp only [createdLabeledUids, List.mem_append]
        tauto
    · obtain ⟨tg, -, hmt⟩ := List.mem_flatMap.mp hm
      simp at hmt
  · obtain ⟨tc, htc, hm⟩ := List.mem_flatMap.mp h
    unfold tcStmts at hm
    simp only [List.mem_append] at hm
    rcases hm with (hm | hm) | hm
    · simp at hm
    · obtain ⟨c, hc, heq⟩ := List.mem_map.mp hm
      injection heq with h1 h2 h3
      constructor
      · have htgt : tgt ∈ rf.test_cases.flatMap (fun tc => tc.called_keywords) :=
          List.mem_flatMap.mpr ⟨tc, htc, h3 ▸ hc⟩
        unfold callTargets
        exact List.mem_append_right _ htgt
      · have hsrc : src ∈ rf.test_cases.map (fun tc => tc.fqn) :=
          List.mem_map.mpr ⟨tc, htc, h2⟩
        simp only [createdLabeledUids, List.mem_append]
        tauto
    · obtain ⟨tg, -, hmt⟩ := List.mem_flatMap.mp hm
      simp at hmt
  · obtain ⟨v, -, hm⟩ := List.mem_flatMap.mp h
    simp at hm
  · obtain ⟨lm, -, hm⟩ := List.mem_flatMap.mp h
    simp at hm

lemma createsUid_mem (rf : ResourceFile) (t : GStmt) (ht : t ∈ fileStmts rf)
    (u : String) (hc : StmtCreatesUid t u) : u ∈ createdLabeledUids rf := by
  cases t with
  | matchEdge l1 u1 l2 u2 ty => exact absurd hc (by simp [StmtCreatesUid])
  | mergeImport a b =>
    obtain ⟨ha, hb⟩ := mergeImport_mem_shape rf a b ht
    rcases hc with hc | hc
    · have h0 : u ∈ [rf.rel_path] := by simp [← hc, ha]
      simp only [createdLabeledUids, List.mem_append]
      tauto
    · have h0 : u ∈ rf.imports := hc ▸ hb
      simp only [createdLabeledUids, List.mem_append]
      tauto
  | mergeCalls l src tgt =>
    have hc' : src = u := hc
    have h0 := (mergeCalls_mem_shape rf l src tgt ht).2
    rw [← hc']
    exact h0
  | mergeSetNode l u' P =>
    have hc' : u' = u := hc
    rw [← hc']
    rcases mergeSetNode_mem_shape rf l u' P ht with
      ⟨hl, hu, hP⟩ | ⟨kw, hkw, hl, hu, hP⟩ | ⟨tc, htc, hl, hu, hP⟩ |
      ⟨hl, hP, hu⟩ | ⟨v, hv, hl, hu, hP⟩ | ⟨lm, hlm, hl, hu, hP⟩
    · have h0 : u' ∈ [rf.rel_path] := by simp [hu]
      simp only [createdLabeledUids, List.mem_append]
      tauto
    · have h0 : u' ∈ rf.keywords.map (fun kw => kw.fqn) :=
        List.mem_map.mpr ⟨kw, hkw, hu.symm⟩
      simp only [createdLabeledUids, List.mem_append]
      tauto
    · have h0 : u' ∈ rf.test_cases.map (fun tc => tc.fqn) :=
        List.mem_map.mpr ⟨tc, htc, hu.symm⟩
      simp only [createdLabeledUids, List.mem_append]
      tauto
    · rcases hu with ⟨kw, hkw, tg, htg, hu⟩ | ⟨tc, htc, tg, htg, hu⟩
      · have h0 : u' ∈ rf.keywords.flatMap
            (fun kw => kw.tags.map (fun t => "tag:" ++ t)) :=
          List.mem_flatMap.mpr ⟨kw, hkw, List.mem_map.mpr ⟨tg, htg, hu.symm⟩⟩
        simp only [createdLabeledUids, List.mem_append]
        tauto
      · have h0 : u' ∈ rf.test_cases.flatMap
            (fun tc => tc.tags.map (fun t => "tag:" ++ t)) :=
          List.mem_flatMap.mpr ⟨tc, htc, List.mem_map.mpr ⟨tg, htg, hu.symm⟩⟩
        simp only [createdLabeledUids, List.mem_append]
        tauto
    · have h0 : u' ∈ rf.variable_defs.map (fun v => "var:" ++ v.name) :=
        List.mem_map.mpr ⟨v, hv, hu.symm⟩
      simp only [createdLabeledUids, List.mem_append]
      tauto
    · have h0 : u' ∈ rf.locator_mappings.map
          (fun lm => "element:" ++ lm.element_name) :=
        List.mem_map.mpr ⟨lm, hlm, hu.symm⟩
      simp only [createdLabeledUids, List.mem_append]
      tauto

lemma mergeSetNode_canon (rf : ResourceFile)
    (H1 : (rf.keywords.map (fun kw => kw.fqn)).Nodup)
    (H2 : (rf.test_cases.map (fun tc => tc.fqn)).Nodup)
    (H3 : (rf.variable_defs.map (fun v => v.name)).Nodup)
    (H4 : (rf.locator_mappings.map (fun lm => lm.element_name)).Nodup)
    (l : GLabel) (u : String) (P : List (String × String))
    (h : GStmt.mergeSetNode l u P ∈ fileStmts rf) :
    P = propsForKey rf l u := by
  have hpre : Function.Injective (fun s => "var:" ++ s) :=
    fun a b hab => strApp_cancel _ a b hab
  have hpre' : Function.Injective (fun s => "element:" ++ s) :=
    fun a b hab => strApp_cancel _ a b hab
  rcases mergeSetNode_mem_shape rf l u P h with
    ⟨hl, hu, hP⟩ | ⟨kw, hkw, hl, hu, hP⟩ | ⟨tc, htc, hl, hu, hP⟩ |
    ⟨hl, hP, -⟩ | ⟨v, hv, hl, hu, hP⟩ | ⟨lm, hlm, hl, hu, hP⟩
  · subst hl
    subst hu
    simpa [propsForKey] using hP
  · subst hl
    subst hu
    have hfind : rf.keywords.find? (fun k => k.fqn == kw.fqn) = some kw :=
      find?_nodup_eq rf.keywords (fun k => k.fqn) H1 kw hkw
    simp only [propsForKey]
    rw [hfind]
    simpa using hP
  · subst hl
    subst hu
    have hfind : rf.test_cases.find? (fun k => k.fqn == tc.fqn) = some tc :=
      find?_nodup_eq rf.test_cases (fun k => k.fqn) H2 tc htc
    simp only [propsForKey]
    rw [hfind]
    simpa using hP
  · subst hl
    simpa [propsForKey] using hP
  · subst hl
    subst hu
    have hnd : (rf.variable_defs.map (fun w => "var:" ++ w.name)).Nodup := by
      have h2 := List.Nodup.map hpre H3
      rw [List.map_map] at h2
      exact h2
    have hfind : rf.variable_defs.find?
        (fun w => ("var:" ++ w.name) == ("var:" ++ v.name)) = some v :=
      find?_nodup_eq rf.variable_defs (fun w => "var:" ++ w.name) hnd v hv
    simp only [propsForKey]
    rw [hfind]
    simpa using hP
  · subst hl
    subst hu
    have hnd : (rf.locator_mappings.map
        (fun w => "element:" ++ w.element_name)).Nodup := by
      have h2 := List.Nodup.map hpre' H4
      rw [List.map_map] at h2
      exact h2
    have hfind : rf.locator_mappings.find?
        (fun w => ("element:" ++ w.element_name)
          == ("element:" ++ lm.element_name)) = some lm :=
      find?_nodup_eq rf.locator_mappings
        (fun w => "element:" ++ w.element_name) hnd lm hlm
    simp only [propsForKey]
    rw [hfind]
    simpa using hP

lemma fileStmts_safe (rf : ResourceFile)
    (H1 : (rf.keywords.map (fun kw => kw.fqn)).Nodup)
    (H2 : (rf.test_cases.map (fun tc => tc.fqn)).Nodup)
    (H3 : (rf.variable_defs.map (fun v => v.name)).Nodup)
    (H4 : (rf.locator_mappings.map (fun lm => lm.element_name)).Nodup)
    (H5 : ∀ t ∈ callTargets rf, t ∉ createdLabeledUids rf) :
    ∀ ta ∈ fileStmts rf, ∀ tb ∈ fileStmts rf, StmtSafe ta tb := by
  intro ta hta tb htb
  cases ta with
  | mergeSetNode l u P =>
    intro l' u' P' heq hl hu
    subst heq
    subst hl
    subst hu
    have h1 := mergeSetNode_canon rf H1 H2 H3 H4 l' u' P hta
    have h2 := mergeSetNode_canon rf H1 H2 H3 H4 l' u' P' htb
    rw [h2, h1]
  | mergeCalls l src tgt =>
    intro hc
    have htgt := (mergeCalls_mem_shape rf l src tgt hta).1
    exact H5 tgt htgt (createsUid_mem rf tb htb tgt hc)
  | matchEdge l1 u1 l2 u2 ty => trivial
  | mergeImport a b => trivial

/-- Claim C4, counterexample: `add_file` is not idempotent.  For the file
`fwdRf`, whose keyword `A` calls the later-defined keyword `B`, the
label-less `MERGE (b {uid})` in the `CALLS` statement creates an unlabelled
placeholder on the first ingestion; the second ingestion re-binds that uid to
both the placeholder and the meanwhile-created `:Keyword` node and adds a
second `CALLS` edge with the same `(source, target, edge_type)` uid triple. -/
theorem C4_counterexample :
    addFile (addFile GraphState.empty fwdRf) fwdRf
      ≠ addFile GraphState.empty fwdRf ∧
    ((addFile (addFile GraphState.empty fwdRf) fwdRf).edges.filter
        (fun e => (e.src.2 == "f.A") && (e.tgt.2 == "f.B")
          && (e.etype == "CALLS"))).length = 2 ∧
    ((addFile GraphState.empty fwdRf).edges.filter
        (fun e => (e.src.2 == "f.A") && (e.tgt.2 == "f.B")
          && (e.etype == "CALLS"))).length = 1 := by
  decide

/-- Claim C4 (amended): `add_file` is idempotent for every file whose
keyword/test-case fully-qualified names, variable names and locator-element
names are duplicate-free and whose call targets never coincide with a uid
this ingestion merges with a label: re-ingesting such a file leaves the
graph — nodes and edges — exactly as after the first ingestion. -/
theorem C4_amended (rf : ResourceFile)
    (H1 : (rf.keywords.map (fun kw => kw.fqn)).Nodup)
    (H2 : (rf.test_cases.map (fun tc => tc.fqn)).Nodup)
    (H3 : (rf.variable_defs.map (fun v => v.name)).Nodup)
    (H4 : (rf.locator_mappings.map (fun lm => lm.element_name)).Nodup)
    (H5 : ∀ t ∈ callTargets rf, t ∉ createdLabeledUids rf)
    (s : GraphState) :
    addFile (addFile s rf) rf = addFile s rf := by
  have hsafe := fileStmts_safe rf H1 H2 H3 H4 H5
  have hwf := fileStmts_wf rf
  have hall : ∀ ta ∈ fileStmts rf, StmtDone (addFile s rf) ta := by
    have hrun := run_all (fileStmts rf) s []
      (by intro td htd; simp at htd)
      (by intro ta hta t' ht'; exact hsafe ta (by simpa using hta) t' ht')
      hwf
    intro ta hta
    exact hrun ta (by simpa using hta)
  unfold addFile
  apply foldl_eq_of_all
  intro t ht
  exact exec_eq_of_done (addFile s rf) t (hall t ht)

/-- Witness for C4 (amended) at the concrete file `safeRf` and the empty
store. -/
theorem C4_witness :
    addFile (addFile GraphState.empty safeRf) safeRf
      = addFile GraphState.empty safeRf :=
  C4_amended safeRf (by decide) (by decide) (by decide) (by decide)
    (by decide) GraphState.empty

lemma subLeads_self_append (l r : List Char) : subLeads l (l ++ r) = true := by
  induction l with
  | nil => rfl
  | cons a as ih => simp [subLeads, ih]

lemma removePre_cancel (p s : String) : removePre p (p ++ s) = s := by
  unfold removePre
  rw [String.data_append, if_pos (subLeads_self_append p.data s.data)]
  rw [List.drop_left]

lemma filter_map_id {α : Type} (p : α → Bool) (f : α → α) (l : List α)
    (h1 : ∀ a ∈ l, p a = true → f a = a)
    (h2 : ∀ a ∈ l, p (f a) = p a) :
    (l.map f).filter p = l.filter p := by
  induction l with
  | nil => rfl
  | cons a as ih =>
    rw [List.map_cons, List.filter_cons, List.filter_cons, h2 a (by simp)]
    have ih' := ih (fun x hx hp => h1 x (by simp [hx]) hp)
      (fun x hx => h2 x (by simp [hx]))
    cases hp : p a with
    | true => simp [hp, h1 a (List.mem_cons_self a as) hp, ih']
    | false => simp [hp, ih']

lemma leNodes_addEdge (s : GraphState) (e : GEdge) :
    leNodes (s.addEdge e) = leNodes s := by
  simp [leNodes, addEdge_nodes]

lemma leNodes_mergeBare (s : GraphState) (l : GLabel) (u : String)
    (h : l ≠ GLabel.LocatorElement) :
    leNodes (s.mergeBare l u) = leNodes s := by
  unfold GraphState.mergeBare
  split
  · rfl
  · simp only [leNodes, List.filter_append]
    have : (([({ key := (some l, u), props := [] } : GNode)] : List GNode).filter
        (fun n => n.key.1 = some GLabel.LocatorElement)) = [] := by
      simp [h]
    rw [this, List.append_nil]

lemma leNodes_mergeSet_other (s : GraphState) (l : GLabel) (u : String)
    (P : List (String × String)) (h : l ≠ GLabel.LocatorElement) :
    leNodes (s.mergeSet l u P) = leNodes s := by
  unfold GraphState.mergeSet
  split
  · simp only [leNodes]
    apply filter_map_id
    · intro a ha hp
      have hne : a.key ≠ ((some l, u) : NodeKey) := by
        intro hk
        rw [hk] at hp
        simp at hp
        exact h hp
      rw [if_neg hne]
    · intro a ha
      split <;> rfl
  · simp only [leNodes, List.filter_append]
    have : (([({ key := (some l, u), props := P } : GNode)] : List GNode).filter
        (fun n => n.key.1 = some GLabel.LocatorElement)) = [] := by
      simp [h]
    rw [this, List.append_nil]

lemma leNodes_exec_other (s : GraphState) (t : GStmt)
    (hset : ∀ u P, t ≠ GStmt.mergeSetNode GLabel.LocatorElement u P)
    (hcall : ∀ src tgt, t ≠ GStmt.mergeCalls GLabel.LocatorElement src tgt) :
    leNodes (execStmt s t) = leNodes s := by
  cases t with
  | mergeSetNode l u P =>
    have hl : l ≠ GLabel.LocatorElement := by
      intro h
      exact hset u P (by rw [h])
    exact leNodes_mergeSet_other s l u P hl
  | mergeImport a b =>
    show leNodes ((((s.mergeBare .File a).mergeBare .File b)).addEdge _) = _
    rw [leNodes_addEdge, leNodes_mergeBare _ _ _ (by simp),
      leNodes_mergeBare _ _ _ (by simp)]
  | matchEdge l1 u1 l2 u2 ty =>
    show leNodes (if _ then _ else _) = _
    split
    · rw [leNodes_addEdge]
    · rfl
  | mergeCalls l src tgt =>
    have hl : l ≠ GLabel.LocatorElement := by
      intro h
      exact hcall src tgt (by rw [h])
    show leNodes (if _ then _ else _) = _
    split
    · rw [leNodes_addEdge]
      simp only [leNodes, List.filter_append]
      have : (([({ key := (none, tgt), props := [] } : GNode)] : List GNode).filter
          (fun n => n.key.1 = some GLabel.LocatorElement)) = [] := by
        simp
      rw [this, List.append_nil]
      exact leNodes_mergeBare s l src hl
    · have hn : ∀ (st : GraphState) (ks : List NodeKey),
          leNodes (ks.foldl (fun st k =>
            st.addEdge { src := (some l, src), tgt := k, etype := "CALLS" }) st)
            = leNodes st := by
        intro st ks
        induction ks generalizing st with
        | nil => rfl
        | cons k ks ih => rw [List.foldl_cons, ih, leNodes_addEdge]
      rw [hn, leNodes_mergeBare s l src hl]

lemma leNodes_foldl_other (L : List GStmt) :
    ∀ (s : GraphState),
      (∀ t ∈ L, (∀ u P, t ≠ GStmt.mergeSetNode GLabel.LocatorElement u P) ∧
        (∀ src tgt, t ≠ GStmt.mergeCalls GLabel.LocatorElement src tgt)) →
      leNodes (L.foldl execStmt s) = leNodes s := by
  induction L with
  | nil => intro s _; rfl
  | cons t L ih =>
    intro s h
    rw [List.foldl_cons, ih _ (fun x hx => h x (by simp [hx])),
      leNodes_exec_other s t (h t (by simp)).1 (h t (by simp)).2]

lemma hasKey_of_leNodes_nil (s : GraphState) (u : String)
    (h : leNodes s = []) :
    s.hasKey (some GLabel.LocatorElement, u) = false := by
  cases hk : s.hasKey (some GLabel.LocatorElement, u) with
  | false => rfl
  | true =>
    obtain ⟨n, hn, hkey⟩ := List.any_eq_true.mp hk
    have hkey' : n.key = ((some GLabel.LocatorElement, u) : NodeKey) := by
      simpa using hkey
    have : n ∈ leNodes s := by
      simp only [leNodes, List.mem_filter]
      exact ⟨hn, by simp [hkey']⟩
    rw [h] at this
    simp at this

lemma leNodes_preStmts (rf : ResourceFile) (s : GraphState) :
    leNodes (([GStmt.mergeSetNode .File rf.rel_path (fileProps rf)]
      ++ rf.imports.map (fun imp => GStmt.mergeImport rf.rel_path imp)
      ++ rf.keywords.flatMap (fun kw => kwStmts rf kw)
      ++ rf.test_cases.flatMap (fun tc => tcStmts rf tc)
      ++ rf.variable_defs.flatMap (fun v =>
          [GStmt.mergeSetNode .Variable ("var:" ++ v.name) (varProps rf v),
           GStmt.matchEdge .File rf.rel_path .Variable ("var:" ++ v.name)
             "DEFINES"])).foldl execStmt s) = leNodes s := by
  apply leNodes_foldl_other
  intro t ht
  simp only [List.mem_append] at ht
  rcases ht with (((ht | ht) | ht) | ht) | ht
  · rw [List.mem_singleton] at ht
    rw [ht]
    exact ⟨fun u P h => by simp at h, fun a b h => by simp at h⟩
  · obtain ⟨i, -, hi⟩ := List.mem_map.mp ht
    rw [← hi]
    exact ⟨fun u P h => by simp at h, fun a b h => by simp at h⟩
  · obtain ⟨kw, -, hm⟩ := List.mem_flatMap.mp ht
    unfold kwStmts at hm
    simp only [List.mem_append] at hm
    rcases hm with (hm | hm) | hm
    · rw [List.mem_cons, List.mem_singleton] at hm
      rcases hm with hm | hm <;> rw [hm] <;>
        exact ⟨fun u P h => by simp at h, fun a b h => by simp at h⟩
    · obtain ⟨c, -, hc⟩ := List.mem_map.mp hm
      rw [← hc]
      exact ⟨fun u P h => by simp at h, fun a b h => by simp at h⟩
    · obtain ⟨tg, -, hmt⟩ := List.mem_flatMap.mp hm
      rw [List.mem_cons, List.mem_singleton] at hmt
      rcases hmt with hmt | hmt <;> rw [hmt] <;>
        exact ⟨fun u P h => by simp at h, fun a b h => by simp at h⟩
  · obtain ⟨tc, -, hm⟩ := List.mem_flatMap.mp ht
    unfold tcStmts at hm
    simp only [List.mem_append] at hm
    rcases hm with (hm | hm) | hm
    · rw [List.mem_cons, List.mem_singleton] at hm
      rcases hm with hm | hm <;> rw [hm] <;>
        exact ⟨fun u P h => by simp at h, fun a b h => by simp at h⟩
    · obtain ⟨c, -, hc⟩ := List.mem_map.mp hm
      rw [← hc]
      exact ⟨fun u P h => by simp at h, fun a b h => by simp at h⟩
    · obtain ⟨tg, -, hmt⟩ := List.mem_flatMap.mp hm
      rw [List.mem_cons, List.mem_singleton] at hmt
      rcases hmt with hmt | hmt <;> rw [hmt] <;>
        exact ⟨fun u P h => by simp at h, fun a b h => by simp at h⟩
  · obtain ⟨v, -, hm⟩ := List.mem_flatMap.mp ht
    rw [List.mem_cons, List.mem_singleton] at hm
    rcases hm with hm | hm <;> rw [hm] <;>
      exact ⟨fun u P h => by simp at h, fun a b h => by simp at h⟩

lemma nodes_matchEdge (s : GraphState) (l1 : GLabel) (u1 : String)
    (l2 : GLabel) (u2 ty : String) :
    (execStmt s (GStmt.matchEdge l1 u1 l2 u2 ty)).nodes = s.nodes := by
  simp only [execStmt]
  split
  · rw [addEdge_nodes]
  · rfl

lemma leNodes_locStmts (rel : String) (rems : List LocatorMapping) :
    ∀ (s : GraphState),
      (∀ lm ∈ rems, s.hasKey
        (some GLabel.LocatorElement, "element:" ++ lm.element_name) = false) →
      (rems.map (fun lm => lm.element_name)).Nodup →
      leNodes ((rems.flatMap (fun lm =>
        [GStmt.mergeSetNode .LocatorElement ("element:" ++ lm.element_name)
           (elemProps lm),
         GStmt.matchEdge .File rel .LocatorElement
           ("element:" ++ lm.element_name) "MAPS_ELEMENT"])).foldl execStmt s)
      = leNodes s ++ rems.map (fun lm =>
          ({ key := (some GLabel.LocatorElement, "element:" ++ lm.element_name),
             props := elemProps lm } : GNode)) := by
  induction rems with
  | nil => intro s _ _; simp
  | cons lm rems ih =>
    intro s hfresh hnd
    obtain ⟨hnotin, hnd'⟩ := List.nodup_cons.mp hnd
    rw [List.flatMap_cons, List.foldl_append, List.foldl_cons,
      List.foldl_cons, List.foldl_nil]
    have hA : execStmt s (GStmt.mergeSetNode .LocatorElement
        ("element:" ++ lm.element_name) (elemProps lm))
        = { s with nodes := s.nodes
            ++ [{ key := (some .LocatorElement, "element:" ++ lm.element_name),
                  props := elemProps lm }] } := by
      show s.mergeSet _ _ _ = _
      unfold GraphState.mergeSet
      rw [hfresh lm (List.mem_cons_self lm rems)]
      simp
    rw [hA]
    set Anode : GNode :=
      { key := (some .LocatorElement, "element:" ++ lm.element_name),
        props := elemProps lm } with hAnode
    set A : GraphState := { s with nodes := s.nodes ++ [Anode] } with hAdef
    have hBn : (execStmt A (GStmt.matchEdge .File rel .LocatorElement
        ("element:" ++ lm.element_name) "MAPS_ELEMENT")).nodes = A.nodes :=
      nodes_matchEdge A _ _ _ _ _
    have hfresh' : ∀ lm' ∈ rems,
        (execStmt A (GStmt.matchEdge .File rel .LocatorElement
          ("element:" ++ lm.element_name) "MAPS_ELEMENT")).hasKey
          (some GLabel.LocatorElement, "element:" ++ lm'.element_name)
          = false := by
      intro lm' hlm'
      have hne : "element:" ++ lm.element_name
          ≠ "element:" ++ lm'.element_name := by
        intro hcontra
        have := strApp_cancel "element:" _ _ hcontra
        exact hnotin (List.mem_map.mpr ⟨lm', hlm', this.symm⟩)
      simp only [GraphState.hasKey, hBn, hAdef, List.any_append]
      rw [Bool.or_eq_false_iff]
      constructor
      · exact hfresh lm' (List.mem_cons_of_mem lm hlm')
      · simp [hAnode]
        intro hcontra
        exact hne hcontra
    have hres := ih (execStmt A (GStmt.matchEdge .File rel .LocatorElement
        ("element:" ++ lm.element_name) "MAPS_ELEMENT")) hfresh' hnd'
    rw [hres]
    have hleB : leNodes (execStmt A (GStmt.matchEdge .File rel .LocatorElement
        ("element:" ++ lm.element_name) "MAPS_ELEMENT"))
        = leNodes s ++ [Anode] := by
      simp only [leNodes, hBn, hAdef, List.filter_append]
      have : (([Anode] : List GNode).filter
          (fun n => n.key.1 = some GLabel.LocatorElement)) = [Anode] := by
        simp [hAnode]
      rw [this]
    rw [hleB, List.map_cons, List.append_assoc, List.singleton_append]

lemma propLookup_elem_ios (lm : LocatorMapping) :
    propLookup (elemProps lm) "ios" = some (lm.ios_locator.getD "") := rfl

lemma propLookup_elem_android (lm : LocatorMapping) :
    propLookup (elemProps lm) "android" = some (lm.android_locator.getD "") := rfl

lemma whereMismatch_elem (lm : LocatorMapping) :
    whereMismatch (elemProps lm) =
      ((lm.ios_locator.getD "" == "") != (lm.android_locator.getD "" == "")) := by
  unfold whereMismatch
  rw [propLookup_elem_ios, propLookup_elem_android]
  by_cases hi : lm.ios_locator.getD "" = "" <;>
    by_cases ha : lm.android_locator.getD "" = "" <;>
    simp [hi, ha]

/-- Claim C8: after ingesting a file (with duplicate-free element names) into
an empty store, `mismatched_po_elements` returns an entry for a locator
element if and only if exactly one of its iOS/Android locators is present
(non-`None` and non-empty), and each entry reports the absent side as the
sentinel `"MISSING"` and the present side verbatim. -/
theorem C8_mismatch (rf : ResourceFile)
    (H : (rf.locator_mappings.map (fun lm => lm.element_name)).Nodup) :
    mismatched_po_elements (addFile GraphState.empty rf) =
      (rf.locator_mappings.filter (fun lm =>
          ((lm.ios_locator.getD "" == "")
            != (lm.android_locator.getD "" == "")))).map
        (fun lm =>
          { element := lm.element_name
            ios := if lm.ios_locator.getD "" = "" then "MISSING"
                   else lm.ios_locator.getD ""
            android := if lm.android_locator.getD "" = "" then "MISSING"
                       else lm.android_locator.getD "" }) := by
  have h0 : addFile GraphState.empty rf
      = (rf.locator_mappings.flatMap (fun lm =>
          [GStmt.mergeSetNode .LocatorElement ("element:" ++ lm.element_name)
             (elemProps lm),
           GStmt.matchEdge .File rf.rel_path .LocatorElement
             ("element:" ++ lm.element_name) "MAPS_ELEMENT"])).foldl execStmt
        (([GStmt.mergeSetNode .File rf.rel_path (fileProps rf)]
          ++ rf.imports.map (fun imp => GStmt.mergeImport rf.rel_path imp)
          ++ rf.keywords.flatMap (fun kw => kwStmts rf kw)
          ++ rf.test_cases.flatMap (fun tc => tcStmts rf tc)
          ++ rf.variable_defs.flatMap (fun v =>
              [GStmt.mergeSetNode .Variable ("var:" ++ v.name) (varProps rf v),
               GStmt.matchEdge .File rf.rel_path .Variable ("var:" ++ v.name)
                 "DEFINES"])).foldl execStmt GraphState.empty) := by
    show (fileStmts rf).foldl execStmt GraphState.empty = _
    rw [← List.foldl_append]
    rfl
  have hpre : leNodes (([GStmt.mergeSetNode .File rf.rel_path (fileProps rf)]
      ++ rf.imports.map (fun imp => GStmt.mergeImport rf.rel_path imp)
      ++ rf.keywords.flatMap (fun kw => kwStmts rf kw)
      ++ rf.test_cases.flatMap (fun tc => tcStmts rf tc)
      ++ rf.variable_defs.flatMap (fun v =>
          [GStmt.mergeSetNode .Variable ("var:" ++ v.name) (varProps rf v),
           GStmt.matchEdge .File rf.rel_path .Variable ("var:" ++ v.name)
             "DEFINES"])).foldl execStmt GraphState.empty) = [] :=
    leNodes_preStmts rf GraphState.empty
  have hle : leNodes (addFile GraphState.empty rf)
      = rf.locator_mappings.map (fun lm =>
          ({ key := (some GLabel.LocatorElement, "element:" ++ lm.element_name),
             props := elemProps lm } : GNode)) := by
    rw [h0, leNodes_locStmts rf.rel_path rf.locator_mappings _
      (fun lm _ => hasKey_of_leNodes_nil _ _ hpre) H, hpre, List.nil_append]
  show (((addFile GraphState.empty rf).nodes.filter _).map _) = _
  rw [← List.filter_filter, List.filter_comm]
  rw [show ((addFile GraphState.empty rf).nodes.filter
      (fun n => n.key.1 = some GLabel.LocatorElement))
      = leNodes (addFile GraphState.empty rf) from rfl, hle]
  rw [List.filter_map, List.map_map]
  rw [List.filter_congr (fun lm _ => by
    show whereMismatch (elemProps lm) = _
    exact whereMismatch_elem lm)]
  apply List.map_congr_left
  intro lm hlm
  show ({ element := removePre "element:" ("element:" ++ lm.element_name)
          ios := orMissing ((propLookup (elemProps lm) "ios").getD "")
          android := orMissing
            ((propLookup (elemProps lm) "android").getD "") } : MismatchEntry)
      = _
  rw [removePre_cancel, propLookup_elem_ios, propLookup_elem_android]
  simp [orMissing]

/-- Witness for C8 at a concrete two-element file: `btn` has only an iOS
locator, `fld` has both. -/
theorem C8_witness :
    mismatched_po_elements (addFile GraphState.empty
      { rel_path := "po.resource",
        locator_mappings :=
          [{ element_name := "btn", ios_locator := some "id=b" },
           { element_name := "fld", ios_locator := some "id=f",
             android_locator := some "xp=f" }] }) =
      [{ element := "btn", ios := "id=b", android := "MISSING" }] := by
  rw [C8_mismatch
    { rel_path := "po.resource",
      locator_mappings :=
        [{ element_name := "btn", ios_locator := some "id=b" },
         { element_name := "fld", ios_locator := some "id=f",
           android_locator := some "xp=f" }] } (by decide)]
  decide

lemma argmaxAux_ge (l : List EReal) :
    ∀ (i : Nat) (best : Nat × EReal),
      best.2 ≤ (argmaxAux i best l).2 ∧ ∀ x ∈ l, x ≤ (argmaxAux i best l).2 := by
  induction l with
  | nil => intro i best; exact ⟨le_refl _, by simp⟩
  | cons x xs ih =>
    intro i best
    simp only [argmaxAux]
    have hb : best.2 ≤ (if best.2 < x then (i, x) else best).2 := by
      split
      · exact le_of_lt (by assumption)
      · exact le_refl _
    have hx : x ≤ (if best.2 < x then (i, x) else best).2 := by
      split
      · exact le_refl _
      · exact le_of_not_lt (by assumption)
    obtain ⟨h1, h2⟩ := ih (i + 1) (if best.2 < x then (i, x) else best)
    refine ⟨le_trans hb h1, ?_⟩
    intro y hy
    rcases List.mem_cons.mp hy with hy | hy
    · rw [hy]; exact le_trans hx h1
    · exact h2 y hy

lemma argmaxAux_attain (l : List EReal) :
    ∀ (i : Nat) (best : Nat × EReal),
      argmaxAux i best l = best ∨
      ∃ j, j < l.length ∧ argmaxAux i best l = (i + j, l.getD j ⊥) := by
  induction l with
  | nil => intro i best; exact Or.inl rfl
  | cons x xs ih =>
    intro i best
    rcases ih (i + 1) (if best.2 < x then (i, x) else best) with h | ⟨j, hj, h⟩
    · by_cases hlt : best.2 < x
      · right
        refine ⟨0, by simp, ?_⟩
        simp only [argmaxAux]
        rw [h, if_pos hlt]
        simp
      · left
        simp only [argmaxAux]
        rw [h, if_neg hlt]
    · right
      refine ⟨j + 1, by simpa using hj, ?_⟩
      simp only [argmaxAux]
      rw [h]
      have hidx : i + 1 + j = i + (j + 1) := by omega
      rw [hidx, List.getD_cons_succ]

lemma argmax_main (l : List EReal) (j : Nat) (hj : j < l.length)
    (hval : (⊥ : EReal) < l.getD j ⊥) :
    argmaxIdx l < l.length ∧ (⊥ : EReal) < l.getD (argmaxIdx l) ⊥ := by
  have hmem : l.getD j ⊥ ∈ l := by
    rw [List.getD_eq_getElem l ⊥ hj]
    exact List.getElem_mem hj
  have hge := (argmaxAux_ge l 0 (0, ⊥)).2 (l.getD j ⊥) hmem
  rcases argmaxAux_attain l 0 (0, ⊥) with h | ⟨j', hj', h⟩
  · exfalso
    rw [h] at hge
    exact absurd (lt_of_lt_of_le hval hge) (lt_irrefl _)
  · have hidx : argmaxIdx l = j' := by
      rw [argmaxIdx, h]
      simp
    constructor
    · rw [hidx]; exact hj'
    · rw [hidx]
      rw [h] at hge
      simp only [zero_add] at hge
      exact lt_of_lt_of_le hval hge

lemma maskFrom_length (sel : List Nat) (l : List EReal) :
    ∀ (i : Nat), (maskFrom i sel l).length = l.length := by
  induction l with
  | nil => intro i; rfl
  | cons x xs ih => intro i; simp [maskFrom, ih]

lemma maskFrom_getD (sel : List Nat) (l : List EReal) :
    ∀ (i j : Nat), j < l.length →
      (maskFrom i sel l).getD j ⊥ =
        if (i + j) ∈ sel then (⊥ : EReal) else l.getD j ⊥ := by
  induction l with
  | nil => intro i j hj; simp at hj
  | cons x xs ih =>
    intro i j hj
    cases j with
    | zero => simp [maskFrom]
    | succ j' =>
      simp only [maskFrom, List.getD_cons_succ]
      rw [ih (i + 1) j' (by simpa using hj)]
      have hidx : i + 1 + j' = i + (j' + 1) := by omega
      rw [hidx]

lemma zipWith_min_getD (a b : List EReal) (j : Nat)
    (hja : j < a.length) (hjb : j < b.length) :
    (List.zipWith min a b).getD j ⊥ = min (a.getD j ⊥) (b.getD j ⊥) := by
  have hlen : j < (List.zipWith min a b).length := by
    rw [List.length_zipWith]
    omega
  rw [List.getD_eq_getElem _ _ hlen, List.getElem_zipWith,
    List.getD_eq_getElem _ _ hja, List.getD_eq_getElem _ _ hjb]

lemma fpsRun_invariant (mat : List (List ℝ)) (L : Nat) (hL : mat.length = L)
    (hL1 : 1 ≤ L) :
    ∀ m, m + 1 ≤ L →
      ((fpsStep mat)^[m] ([0], List.replicate L (⊤ : EReal))).1.length = m + 1 ∧
      ((fpsStep mat)^[m] ([0], List.replicate L (⊤ : EReal))).1.Nodup ∧
      (∀ i ∈ ((fpsStep mat)^[m] ([0], List.replicate L (⊤ : EReal))).1, i < L) ∧
      ((fpsStep mat)^[m] ([0], List.replicate L (⊤ : EReal))).2.length = L ∧
      (∀ j, j < L →
        j ∉ ((fpsStep mat)^[m] ([0], List.replicate L (⊤ : EReal))).1 →
        ((fpsStep mat)^[m] ([0], List.replicate L (⊤ : EReal))).2.getD j ⊥
          ≠ ⊥) := by
  intro m
  induction m with
  | zero =>
    intro _
    refine ⟨by simp, by simp, ?_, by simp, ?_⟩
    · intro i hi
      rw [Function.iterate_zero_apply] at hi
      simp only [List.mem_singleton] at hi
      omega
    · intro j hj _
      rw [Function.iterate_zero_apply]
      rw [List.getD_eq_getElem _ _ (by simpa using hj), List.getElem_replicate]
      simp
  | succ m ih =>
    intro h
    obtain ⟨ha, hb, hc, hd, he⟩ := ih (by omega)
    set st := (fpsStep mat)^[m] ([0], List.replicate L (⊤ : EReal)) with hst
    rw [Function.iterate_succ_apply']
    have hstep : fpsStep mat st =
        (st.1 ++ [argmaxIdx (maskFrom 0 st.1 (List.zipWith min st.2
            (mat.map (fun row =>
              (((1 : ℝ) - dotR row (mat.getD (st.1.getLastD 0) []) : ℝ)
                : EReal)))))],
          maskFrom 0 st.1 (List.zipWith min st.2
            (mat.map (fun row =>
              (((1 : ℝ) - dotR row (mat.getD (st.1.getLastD 0) []) : ℝ)
                : EReal))))) := rfl
    rw [hstep]
    set dists := mat.map (fun row =>
      (((1 : ℝ) - dotR row (mat.getD (st.1.getLastD 0) []) : ℝ) : EReal))
      with hdists
    set md := maskFrom 0 st.1 (List.zipWith min st.2 dists) with hmd
    set nxt := argmaxIdx md with hnxt
    have hdlen : dists.length = L := by rw [hdists, List.length_map, hL]
    have hzlen : (List.zipWith min st.2 dists).length = L := by
      rw [List.length_zipWith, hd, hdlen]
      simp
    have hmdlen : md.length = L := by rw [hmd, maskFrom_length, hzlen]
    have hdg : ∀ j, j < L → (⊥ : EReal) < dists.getD j ⊥ := by
      intro j hj
      rw [hdists,
        List.getD_eq_getElem _ _ (by rw [List.length_map, hL]; exact hj),
        List.getElem_map]
      exact EReal.bot_lt_coe _
    have hunmasked : ∀ j, j < L → j ∉ st.1 →
        (⊥ : EReal) < md.getD j ⊥ := by
      intro j hj hnot
      rw [hmd, maskFrom_getD st.1 _ 0 j (by rw [hzlen]; exact hj)]
      simp only [Nat.zero_add]
      rw [if_neg hnot]
      rw [zipWith_min_getD _ _ j (by rw [hd]; exact hj)
        (by rw [hdlen]; exact hj)]
      exact lt_min_iff.mpr ⟨bot_lt_iff_ne_bot.mpr (he j hj hnot), hdg j hj⟩
    have hexists : ∃ j0, j0 < L ∧ j0 ∉ st.1 := by
      by_contra hcon
      push_neg at hcon
      have hsub : List.range L ⊆ st.1 := by
        intro x hx
        exact hcon x (List.mem_range.mp hx)
      have hle := (List.subperm_of_subset (List.nodup_range L) hsub).length_le
      rw [List.length_range, ha] at hle
      omega
    obtain ⟨j0, hj0L, hj0n⟩ := hexists
    have ham := argmax_main md j0 (by rw [hmdlen]; exact hj0L)
      (hunmasked j0 hj0L hj0n)
    have hnxtL : nxt < L := by rw [← hmdlen]; exact ham.1
    have hnxtnot : nxt ∉ st.1 := by
      intro hmem
      have hmask : md.getD nxt ⊥ = ⊥ := by
        rw [hmd, maskFrom_getD st.1 _ 0 nxt (by rw [hzlen]; exact hnxtL)]
        simp only [Nat.zero_add]
        rw [if_pos hmem]
      have := ham.2
      rw [hmask] at this
      exact absurd this (lt_irrefl _)
    refine ⟨?_, ?_, ?_, hmdlen, ?_⟩
    · simp [ha]
    · simp [List.nodup_append, hb, hnxtnot]
    · intro i hi
      rcases List.mem_append.mp hi with hi | hi
      · exact hc i hi
      · rw [List.mem_singleton] at hi
        rw [hi]
        exact hnxtL
    · intro j hj hnot
      have hnot1 : j ∉ st.1 := fun hcc => hnot (List.mem_append_left _ hcc)
      exact (hunmasked j hj hnot1).ne'

/-- Claim C9, counterexample: for one candidate and `n = 0` the claimed
output size is `k = min(0, 1) = 0`, but the seed is selected before the
loop runs, so the function returns one candidate. -/
theorem C9_counterexample :
    (farthest_point_sampling (fun _ => []) [("a", [1])] 0).length = 1 ∧
    (min (0 : Int)
      (([("a", ([1] : List ℚ))] : List (String × List ℚ)).length : Int)).toNat
      = 0 := by
  constructor
  · simp [farthest_point_sampling, fpsState, fpsRun]
  · decide

/-- Claim C9 (amended): for `n ≥ 1` and duplicate-free candidate ids, with
`k = min(n, |C|)`: the sampler returns exactly `k` rows, the selected
identities are pairwise distinct regardless of tie patterns, and when
`n ≥ |C|` the selected identities are exactly the full candidate id set. -/
theorem C9_amended (meta : String → List (String × String))
    (embeddings : List (String × List ℚ)) (n : Int) (hn : 1 ≤ n)
    (hids : (embeddings.map (fun e => e.1)).Nodup) :
    (farthest_point_sampling meta embeddings n).length
        = (min n (embeddings.length : Int)).toNat ∧
    (fpsSelectedIds embeddings n).Nodup ∧
    ((embeddings.length : Int) ≤ n →
      (fpsSelectedIds embeddings n).Perm (embeddings.map (fun e => e.1))) := by
  by_cases hemp : embeddings.isEmpty
  · have hnil : embeddings = [] := List.isEmpty_iff.mp hemp
    subst hnil
    refine ⟨?_, ?_, ?_⟩
    · simp only [farthest_point_sampling, List.isEmpty_nil, if_true,
        List.length_nil, Nat.cast_zero, List.length_cons]
      rw [min_eq_right (by omega : (0 : Int) ≤ n)]
      rfl
    · simp [fpsSelectedIds]
    · intro _
      simp [fpsSelectedIds]
  · have hL1 : 1 ≤ embeddings.length := by
      rcases embeddings with _ | _
      · simp at hemp
      · simp
    have hmatlen : (fpsMatrix embeddings).length = embeddings.length := by
      simp [fpsMatrix]
    have hk1 : 1 ≤ min n (embeddings.length : Int) :=
      le_min hn (by exact_mod_cast hL1)
    have hkL : min n (embeddings.length : Int) ≤ (embeddings.length : Int) :=
      min_le_right _ _
    have hmle : ((min n (embeddings.length : Int)) - 1).toNat + 1
        ≤ embeddings.length := by omega
    obtain ⟨hlen, hnodup, hbound, -, -⟩ :=
      fpsRun_invariant (fpsMatrix embeddings) embeddings.length hmatlen hL1
        ((min n (embeddings.length : Int)) - 1).toNat hmle
    have hstate : (fpsState embeddings n).1
        = ((fpsStep (fpsMatrix embeddings))^[((min n
              (embeddings.length : Int)) - 1).toNat]
            ([0], List.replicate embeddings.length (⊤ : EReal))).1 := by
      rw [show fpsState embeddings n
          = fpsRun (fpsMatrix embeddings)
              (min n (embeddings.length : Int)) from rfl]
      rw [show fpsRun (fpsMatrix embeddings) (min n (embeddings.length : Int))
          = (fpsStep (fpsMatrix embeddings))^[((min n
                (embeddings.length : Int)) - 1).toNat]
              ([0], List.replicate (fpsMatrix embeddings).length (⊤ : EReal))
          from rfl]
      rw [hmatlen]
    have hsellen : (fpsState embeddings n).1.length
        = (min n (embeddings.length : Int)).toNat := by
      rw [hstate, hlen]
      omega
    have hselnodup : (fpsState embeddings n).1.Nodup := by
      rw [hstate]; exact hnodup
    have hselbound : ∀ i ∈ (fpsState embeddings n).1,
        i < embeddings.length := by
      rw [hstate]; exact hbound
    have hidslen : (embeddings.map (fun e => e.1)).length
        = embeddings.length := List.length_map _ _
    have hinj : ∀ x ∈ (fpsState embeddings n).1,
        ∀ y ∈ (fpsState embeddings n).1,
        (embeddings.map (fun e => e.1)).getD x ""
          = (embeddings.map (fun e => e.1)).getD y "" → x = y := by
      intro x hx y hy hfeq
      rw [List.getD_eq_getElem _ _ (by rw [hidslen]; exact hselbound x hx),
        List.getD_eq_getElem _ _ (by rw [hidslen]; exact hselbound y hy)]
        at hfeq
      exact (List.Nodup.getElem_inj_iff hids).mp hfeq
    refine ⟨?_, ?_, ?_⟩
    · simp only [farthest_point_sampling]
      rw [if_neg hemp]
      simp only [List.length_map]
      exact hsellen
    · simp only [fpsSelectedIds]
      rw [if_neg hemp]
      exact List.Nodup.map_on hinj hselnodup
    · intro hfull
      have hkfull : min n (embeddings.length : Int)
          = (embeddings.length : Int) := min_eq_right hfull
      have hlenL : (fpsState embeddings n).1.length = embeddings.length := by
        rw [hsellen, hkfull]
        omega
      have hsub : (fpsState embeddings n).1 ⊆ List.range embeddings.length :=
        fun x hx => List.mem_range.mpr (hselbound x hx)
      have hperm : (fpsState embeddings n).1.Perm
          (List.range embeddings.length) :=
        (List.subperm_of_subset hselnodup hsub).perm_of_length_le
          (by rw [List.length_range, hlenL])
      have hmapid : (List.range embeddings.length).map
          (fun idx => (embeddings.map (fun e => e.1)).getD idx "")
          = embeddings.map (fun e => e.1) := by
        apply List.ext_getElem
        · simp
        · intro i h1 h2
          rw [List.getElem_map, List.getElem_range,
            List.getD_eq_getElem _ _ (by rw [hidslen]; simpa using h2)]
      simp only [fpsSelectedIds]
      rw [if_neg hemp]
      exact (hperm.map _).trans (by rw [hmapid])

/-- Witness for C9 (amended) at two concrete candidates and `n = 5`. -/
theorem C9_witness :
    (farthest_point_sampling (fun _ => []) [("a", [1]), ("b", [0])] 5).length
        = (min (5 : Int)
            (([("a", ([1] : List ℚ)), ("b", [0])]
              : List (String × List ℚ)).length : Int)).toNat ∧
    (fpsSelectedIds [("a", [1]), ("b", [0])] 5).Nodup ∧
    ((([("a", ([1] : List ℚ)), ("b", [0])]
        : List (String × List ℚ)).length : Int) ≤ 5 →
      (fpsSelectedIds [("a", [1]), ("b", [0])] 5).Perm
        (([("a", ([1] : List ℚ)), ("b", [0])]
          : List (String × List ℚ)).map (fun e => e.1))) :=
  C9_amended (fun _ => []) [("a", [1]), ("b", [0])] 5 (by norm_num) (by decide)

lemma fpsMatrix_emb3 : fpsMatrix fpsEmb3 = [[(1:ℝ), 0], [0, 1], [-1, 0]] := by
  norm_num [fpsMatrix, fpsEmb3, normalizeRow, dotR, Real.sqrt_one]

lemma fpsStep_emb3_1 :
    fpsStep [[(1:ℝ), 0], [0, 1], [-1, 0]] ([0], List.replicate 3 (⊤ : EReal))
      = ([0, 2], [⊥, ((1:ℝ) : EReal), ((2:ℝ) : EReal)]) := by
  have hdists : ([[(1:ℝ), 0], [0, 1], [-1, 0]]).map
      (fun row => (((1:ℝ) - dotR row ([(1:ℝ), 0]) : ℝ) : EReal))
      = [((0:ℝ) : EReal), ((1:ℝ) : EReal), ((2:ℝ) : EReal)] := by
    simp only [List.map_cons, List.map_nil, List.cons.injEq, and_true]
    norm_num [dotR]
  have hmt : ∀ x : EReal, min ⊤ x = x := fun x => min_eq_right le_top
  have hmd : maskFrom 0 [0] (List.zipWith min (List.replicate 3 (⊤ : EReal))
      (([[(1:ℝ), 0], [0, 1], [-1, 0]]).map
        (fun row => (((1:ℝ) - dotR row ([(1:ℝ), 0]) : ℝ) : EReal))))
      = [⊥, ((1:ℝ) : EReal), ((2:ℝ) : EReal)] := by
    rw [hdists]
    rw [show List.replicate 3 (⊤ : EReal) = [⊤, ⊤, ⊤] from rfl]
    rw [show List.zipWith min [(⊤ : EReal), ⊤, ⊤]
        [((0:ℝ) : EReal), ((1:ℝ) : EReal), ((2:ℝ) : EReal)]
        = [min ⊤ ((0:ℝ) : EReal), min ⊤ ((1:ℝ) : EReal),
           min ⊤ ((2:ℝ) : EReal)] from rfl]
    simp only [hmt]
    rfl
  have hargmax : argmaxIdx [⊥, ((1:ℝ) : EReal), ((2:ℝ) : EReal)] = 2 := by
    rw [show argmaxIdx [⊥, ((1:ℝ) : EReal), ((2:ℝ) : EReal)]
        = (argmaxAux 0 (0, ⊥) [⊥, ((1:ℝ) : EReal), ((2:ℝ) : EReal)]).1
        from rfl]
    simp only [argmaxAux]
    rw [if_neg (lt_irrefl (⊥ : EReal))]
    rw [if_pos (EReal.bot_lt_coe 1)]
    rw [if_pos (show ((0 + 1 : Nat), ((1:ℝ) : EReal)).2 < ((2:ℝ) : EReal)
      from by
        show ((1:ℝ) : EReal) < ((2:ℝ) : EReal)
        exact_mod_cast (by norm_num : (1:ℝ) < 2))]
  show ([0] ++ [argmaxIdx (maskFrom 0 [0] (List.zipWith min
      (List.replicate 3 (⊤ : EReal))
      (([[(1:ℝ), 0], [0, 1], [-1, 0]]).map
        (fun row => (((1:ℝ) - dotR row ([(1:ℝ), 0]) : ℝ) : EReal)))))],
    maskFrom 0 [0] (List.zipWith min (List.replicate 3 (⊤ : EReal))
      (([[(1:ℝ), 0], [0, 1], [-1, 0]]).map
        (fun row => (((1:ℝ) - dotR row ([(1:ℝ), 0]) : ℝ) : EReal)))))
    = ([0, 2], [⊥, ((1:ℝ) : EReal), ((2:ℝ) : EReal)])
  rw [hmd, hargmax]
  rfl

lemma fpsStep_emb3_2 :
    fpsStep [[(1:ℝ), 0], [0, 1], [-1, 0]]
        ([0, 2], [⊥, ((1:ℝ) : EReal), ((2:ℝ) : EReal)])
      = ([0, 2, 1], [⊥, ((1:ℝ) : EReal), ⊥]) := by
  have hdists : ([[(1:ℝ), 0], [0, 1], [-1, 0]]).map
      (fun row => (((1:ℝ) - dotR row ([(-1:ℝ), 0]) : ℝ) : EReal))
      = [((2:ℝ) : EReal), ((1:ℝ) : EReal), ((0:ℝ) : EReal)] := by
    simp only [List.map_cons, List.map_nil, List.cons.injEq, and_true]
    norm_num [dotR]
  have hmb : ∀ x : EReal, min ⊥ x = ⊥ := fun x => min_eq_left bot_le
  have hmd : maskFrom 0 [0, 2] (List.zipWith min
      [(⊥ : EReal), ((1:ℝ) : EReal), ((2:ℝ) : EReal)]
      (([[(1:ℝ), 0], [0, 1], [-1, 0]]).map
        (fun row => (((1:ℝ) - dotR row ([(-1:ℝ), 0]) : ℝ) : EReal))))
      = [⊥, ((1:ℝ) : EReal), ⊥] := by
    rw [hdists]
    rw [show List.zipWith min [(⊥ : EReal), ((1:ℝ) : EReal), ((2:ℝ) : EReal)]
        [((2:ℝ) : EReal), ((1:ℝ) : EReal), ((0:ℝ) : EReal)]
        = [min ⊥ ((2:ℝ) : EReal), min ((1:ℝ) : EReal) ((1:ℝ) : EReal),
           min ((2:ℝ) : EReal) ((0:ℝ) : EReal)] from rfl]
    rw [hmb, min_self,
      min_eq_right (show ((0:ℝ) : EReal) ≤ ((2:ℝ) : EReal)
        from by exact_mod_cast (by norm_num : (0:ℝ) ≤ 2))]
    rfl
  have hargmax : argmaxIdx [⊥, ((1:ℝ) : EReal), ⊥] = 1 := by
    rw [show argmaxIdx [⊥, ((1:ℝ) : EReal), ⊥]
        = (argmaxAux 0 (0, ⊥) [⊥, ((1:ℝ) : EReal), ⊥]).1 from rfl]
    simp only [argmaxAux]
    rw [if_neg (lt_irrefl (⊥ : EReal))]
    rw [if_pos (EReal.bot_lt_coe 1)]
    rw [if_neg (not_lt_bot)]
  show ([0, 2] ++ [argmaxIdx (maskFrom 0 [0, 2] (List.zipWith min
      [(⊥ : EReal), ((1:ℝ) : EReal), ((2:ℝ) : EReal)]
      (([[(1:ℝ), 0], [0, 1], [-1, 0]]).map
        (fun row => (((1:ℝ) - dotR row ([(-1:ℝ), 0]) : ℝ) : EReal)))))],
    maskFrom 0 [0, 2] (List.zipWith min
      [(⊥ : EReal), ((1:ℝ) : EReal), ((2:ℝ) : EReal)]
      (([[(1:ℝ), 0], [0, 1], [-1, 0]]).map
        (fun row => (((1:ℝ) - dotR row ([(-1:ℝ), 0]) : ℝ) : EReal)))))
    = ([0, 2, 1], [⊥, ((1:ℝ) : EReal), ⊥])
  rw [hmd, hargmax]
  rfl

/-- Claim C1: contradicted by the code.  On three unit embeddings at 0°, 90°
and 180° with `n = 3`, candidate `c` (index 2) is selected second, at which
moment its running-minimum distance is `2` (second conjunct), yet the
returned rows carry score `0` for `a` and `c` and `1` only for the
last-selected `b`: the loop masks every selected index to `-inf` in the same
array the report later reads, so all but the last selected candidate report
`0.0` instead of their recorded running minimum. -/
theorem C1_code_eval :
    (farthest_point_sampling (fun _ => []) fpsEmb3 3).map
        (fun c => (c.fqn, c.distance_score))
      = [("a", 0), ("c", 0), ("b", ((1:ℝ) : EReal))] ∧
    ((fpsStep (fpsMatrix fpsEmb3))^[1]
        ([0], List.replicate 3 (⊤ : EReal))).2.getD 2 ⊥ = ((2:ℝ) : EReal) := by
  have hit : ∀ (f : List Nat × List EReal → List Nat × List EReal) x,
      f^[2] x = f (f x) := by
    intro f x
    rw [show (2 : Nat) = 1 + 1 from rfl, Function.iterate_succ_apply',
      Function.iterate_one]
  have hrun : fpsState fpsEmb3 3 = ([0, 2, 1], [⊥, ((1:ℝ) : EReal), ⊥]) := by
    show fpsRun (fpsMatrix fpsEmb3) (min 3 (fpsEmb3.length : Int)) = _
    rw [show fpsRun (fpsMatrix fpsEmb3) (min 3 (fpsEmb3.length : Int))
        = (fpsStep (fpsMatrix fpsEmb3))^[((min 3 (fpsEmb3.length : Int))
            - 1).toNat]
          ([0], List.replicate (fpsMatrix fpsEmb3).length (⊤ : EReal))
        from rfl]
    rw [fpsMatrix_emb3]
    rw [show ((min 3 (fpsEmb3.length : Int)) - 1).toNat = 2 from by decide]
    rw [show ([[(1:ℝ), 0], [0, 1], [-1, 0]] : List (List ℝ)).length = 3
      from rfl]
    rw [hit, fpsStep_emb3_1, fpsStep_emb3_2]
  constructor
  · simp only [farthest_point_sampling]
    rw [if_neg (by decide : ¬ (fpsEmb3.isEmpty = true))]
    rw [hrun]
    simp only [List.map_cons, List.map_nil]
    rw [show (fpsEmb3.map (fun e => e.1)).getD 0 "" = "a" from rfl,
      show (fpsEmb3.map (fun e => e.1)).getD 2 "" = "c" from rfl,
      show (fpsEmb3.map (fun e => e.1)).getD 1 "" = "b" from rfl,
      show ([⊥, ((1:ℝ) : EReal), ⊥] : List EReal).getD 0 ⊥ = ⊥ from rfl,
      show ([⊥, ((1:ℝ) : EReal), ⊥] : List EReal).getD 2 ⊥ = ⊥ from rfl,
      show ([⊥, ((1:ℝ) : EReal), ⊥] : List EReal).getD 1 ⊥
        = ((1:ℝ) : EReal) from rfl]
    rw [if_pos rfl, if_neg (EReal.coe_ne_bot 1)]
    simp [List.lookup]
  · rw [fpsMatrix_emb3, Function.iterate_one, fpsStep_emb3_1]
    rfl
